import Mathlib

/-!
Verification of the `moron` timing and animation-evaluation engine.

This file is a shallow embedding of the core of the repository:
the ordered-segment timeline (`src/moron-core/src/timeline.rs`), the
scene-authoring facade `M` (`src/moron-core/src/facade.rs`), the
technique/stagger engine (`src/moron-techniques/src/*.rs`), the theme
key/value export (`src/moron-themes/src/theme.rs`) and the per-instant
frame-state computation (`src/moron-core/src/frame.rs`).

Modelling conventions:
- Rust `f64` values are modelled as exact rationals (`ℚ`).  All arithmetic
  appearing in the modelled code is `+ - * /` and comparisons, which are
  exact on `ℚ`; NaN/infinity behaviour is outside the model.
- Rust `f64::clamp(lo, hi)` panics when `lo > hi`; this is modelled by
  `f64Clamp` returning `Option ℚ` (`none` = panic).
- `&mut self` methods are modelled by state passing: a method returning
  `Result<(), E>` becomes a function returning `Except E Unit × M`, whose
  second component is the (possibly unchanged) state.
- Rust `HashMap<String, String>` built from an iterator of pairs is
  modelled by its only well-defined observable, the key lookup function
  (last insert wins); iteration order of a Rust `HashMap` is unspecified.
-/

namespace Moron

/- ----------------------------------------------------------------------
List helpers shared by the embedding.
`setAtList l i f` is the common Rust pattern `if let Some(x) = l.get_mut(i)
{ *x = f(x) }`: update in place when the index is in bounds, no-op otherwise.
`foldSet` iterates such updates over an index/payload list.
`indicesWhere p l` is Rust's `l.iter().enumerate().filter_map(|(i, x)|
p(x).then(|| i))`, written recursively for provability.
---------------------------------------------------------------------- -/

def setAtList : List α → ℕ → (α → α) → List α
  | [], _, _ => []
  | a :: t, 0, f => f a :: t
  | a :: t, i + 1, f => a :: setAtList t i f

def foldSet (f : γ → α → α) (l : List α) (ps : List (ℕ × γ)) : List α :=
  ps.foldl (fun acc p => setAtList acc p.1 (f p.2)) l

def indicesWhere (p : α → Bool) : List α → List ℕ
  | [] => []
  | a :: rest =>
      (if p a then [0] else []) ++ (indicesWhere p rest).map (· + 1)

/- ----------------------------------------------------------------------
Segment and Timeline (src/moron-core/src/timeline.rs).
`Clip`'s `PathBuf` is modelled as a `String`.
---------------------------------------------------------------------- -/

inductive Segment where
  | narration (text : String) (duration : ℚ)
  | animation (name : String) (duration : ℚ)
  | silence (duration : ℚ)
  | clip (path : String) (duration : ℚ)
deriving DecidableEq

/-- `Segment::duration`. -/
def Segment.duration : Segment → ℚ
  | .narration _ d => d
  | .animation _ d => d
  | .silence d => d
  | .clip _ d => d

/-- The in-place duration write performed by `Timeline::update_segment_duration`
(the variant/payload of the segment is untouched). -/
def Segment.withDuration : Segment → ℚ → Segment
  | .narration t _, d => .narration t d
  | .animation n _, d => .animation n d
  | .silence _, d => .silence d
  | .clip p _, d => .clip p d

/-- Whether a segment is a `Narration` (the `filter_map` test of
`Timeline::narration_indices`). -/
def Segment.isNarration : Segment → Bool
  | .narration _ _ => true
  | _ => false

/-- `DEFAULT_FPS`. -/
def DEFAULT_FPS : ℕ := 30

structure Timeline where
  segments : List Segment
  fps : ℕ
deriving DecidableEq

/-- `Timeline::new`. -/
def Timeline.new (fps : ℕ) : Timeline := { segments := [], fps := fps }

/-- `Timeline::default`. -/
def Timeline.default : Timeline := Timeline.new DEFAULT_FPS

/-- `Timeline::add_segment`. -/
def Timeline.addSegment (tl : Timeline) (segment : Segment) : Timeline :=
  { tl with segments := tl.segments ++ [segment] }

/-- `Timeline::total_duration`. -/
def Timeline.totalDuration (tl : Timeline) : ℚ :=
  (tl.segments.map Segment.duration).sum

/-- `Timeline::total_frames` (`0` when the duration is `<= 0`, else
`ceil(duration * fps)`; the `as u32` saturating cast is not modelled, the
claims never reach it). -/
def Timeline.totalFrames (tl : Timeline) : ℕ :=
  let dur := tl.totalDuration
  if dur ≤ 0 then 0 else (Int.ceil (dur * (tl.fps : ℚ))).toNat

/-- `Timeline::frame_at`. -/
def Timeline.frameAt (tl : Timeline) (time : ℚ) : ℕ :=
  let total := tl.totalFrames
  if total = 0 then 0
  else if time ≤ 0 then 0
  else min (Int.floor (time * (tl.fps : ℚ))).toNat (total - 1)

/-- `Timeline::update_segment_duration`: in-place write through the
`get_mut` pattern (`setAtList`), `false` (and no change) for an
out-of-bounds index. -/
def Timeline.updateSegmentDuration (tl : Timeline) (index : ℕ) (duration : ℚ) :
    Timeline × Bool :=
  ({ tl with
      segments := setAtList tl.segments index fun seg => seg.withDuration duration },
   decide (index < tl.segments.length))

/-- `Timeline::narration_indices`. -/
def Timeline.narrationIndices (tl : Timeline) : List ℕ :=
  indicesWhere Segment.isNarration tl.segments

/-- The scan loop of `Timeline::segments_in_range`: running cursor, the
overlap test `cursor < end && seg_end > start`, and the early exit
`cursor >= end`. -/
def segmentsInRangeAux (start stop : ℚ) : List Segment → ℚ → List (ℚ × Segment)
  | [], _ => []
  | seg :: rest, cursor =>
      let segEnd := cursor + seg.duration
      (if cursor < stop ∧ segEnd > start then [(cursor, seg)] else []) ++
        (if segEnd ≥ stop then [] else segmentsInRangeAux start stop rest segEnd)

/-- `Timeline::segments_in_range`. -/
def Timeline.segmentsInRange (tl : Timeline) (start stop : ℚ) : List (ℚ × Segment) :=
  segmentsInRangeAux start stop tl.segments 0

/- ----------------------------------------------------------------------
Techniques (src/moron-techniques/src/technique.rs, reveals.rs, motion.rs,
data.rs).  The `Technique` trait object is modelled as a structure of its
capability functions; built-in constructors fill `applyItems` with the
trait's default body (broadcast `apply`).
---------------------------------------------------------------------- -/

structure TechniqueOutput where
  opacity : ℚ
  translateX : ℚ
  translateY : ℚ
  scale : ℚ
  rotation : ℚ
deriving DecidableEq

/-- `TechniqueOutput::default`: fully visible / identity transform. -/
def TechniqueOutput.default : TechniqueOutput :=
  { opacity := 1, translateX := 0, translateY := 0, scale := 1, rotation := 0 }

/-- Rust `f64::clamp(self, 0.0, 1.0)` as used by the built-in techniques
(the bounds are constants, so the panic case is unreachable there). -/
def clamp01 (x : ℚ) : ℚ :=
  if x < 0 then 0 else if x > 1 then 1 else x

structure Technique where
  name : String
  duration : ℚ
  apply : ℚ → TechniqueOutput
  applyItems : ℕ → ℚ → List TechniqueOutput

/-- The `Technique` trait's default `apply_items`: broadcast `apply` to
every item. -/
def mkTechnique (name : String) (duration : ℚ) (apply : ℚ → TechniqueOutput) :
    Technique :=
  { name := name, duration := duration, apply := apply,
    applyItems := fun count progress => (List.range count).map fun _ => apply progress }

/-- `FadeIn` (reveals.rs): opacity `0 → 1`. -/
def FadeIn (duration : ℚ) : Technique :=
  mkTechnique "FadeIn" duration fun progress =>
    { TechniqueOutput.default with opacity := clamp01 progress }

/-- `FadeUp` (reveals.rs): opacity `0 → 1`, translateY `distance → 0`. -/
def FadeUp (duration distance : ℚ) : Technique :=
  mkTechnique "FadeUp" duration fun progress =>
    let p := clamp01 progress
    { TechniqueOutput.default with opacity := p, translateY := distance * (1 - p) }

/-- `Slide` (motion.rs): translateX/Y `offset → 0`. -/
def Slide (duration offsetX offsetY : ℚ) : Technique :=
  mkTechnique "Slide" duration fun progress =>
    let p := clamp01 progress
    { TechniqueOutput.default with
        translateX := offsetX * (1 - p), translateY := offsetY * (1 - p) }

/-- `Scale` (motion.rs): scale `from → to`. -/
def ScaleT (duration from_ to_ : ℚ) : Technique :=
  mkTechnique "Scale" duration fun progress =>
    let p := clamp01 progress
    { TechniqueOutput.default with scale := from_ + (to_ - from_) * p }

/-- `CountUp` (data.rs): opacity is the clamped progress. -/
def CountUp (duration from_ to_ : ℚ) : Technique :=
  mkTechnique "CountUp" duration fun progress =>
    { TechniqueOutput.default with opacity := clamp01 progress }

/-- `CountUp::current_value`. -/
def CountUp.currentValue (from_ to_ progress : ℚ) : ℚ :=
  from_ + (to_ - from_) * clamp01 progress

/- ----------------------------------------------------------------------
Stagger (src/moron-techniques/src/staging.rs).
---------------------------------------------------------------------- -/

structure Stagger where
  inner : Technique
  delay : ℚ
  count : ℕ

/-- `Stagger::new`: default delay `0.1`, count `1`. -/
def Stagger.new (inner : Technique) : Stagger :=
  { inner := inner, delay := 0.1, count := 1 }

/-- `Stagger::with_delay`. -/
def Stagger.withDelay (s : Stagger) (delay : ℚ) : Stagger := { s with delay := delay }

/-- `Stagger::with_count`. -/
def Stagger.withCount (s : Stagger) (count : ℕ) : Stagger := { s with count := count }

/-- `Stagger::duration_for_count`. -/
def Stagger.durationForCount (s : Stagger) (count : ℕ) : ℚ :=
  s.inner.duration + (if count > 1 then s.delay * ((count - 1 : ℕ) : ℚ) else 0)

/-- `Stagger::apply_item_for_count`, including the `total_dur <= 0.0`
short-circuit to `inner.apply(1.0)`. -/
def Stagger.applyItemForCount (s : Stagger) (index count : ℕ) (progress : ℚ) :
    TechniqueOutput :=
  let totalDur := s.durationForCount count
  if totalDur ≤ 0 then s.inner.apply 1
  else
    let itemStart := if count > 1 then s.delay * (index : ℚ) / totalDur else 0
    let itemDur := s.inner.duration / totalDur
    if progress ≤ itemStart then s.inner.apply 0
    else if progress ≥ itemStart + itemDur then s.inner.apply 1
    else s.inner.apply ((progress - itemStart) / itemDur)

/-- `Stagger::apply_item`. -/
def Stagger.applyItem (s : Stagger) (index : ℕ) (progress : ℚ) : TechniqueOutput :=
  s.applyItemForCount index s.count progress

/-- `<Stagger as Technique>::duration`. -/
def Stagger.duration (s : Stagger) : ℚ :=
  s.inner.duration + (if s.count > 1 then s.delay * ((s.count - 1 : ℕ) : ℚ) else 0)

/-- `<Stagger as Technique>::apply_items`: per-item evaluation against the
actual `count` argument. -/
def Stagger.applyItems (s : Stagger) (count : ℕ) (progress : ℚ) :
    List TechniqueOutput :=
  (List.range count).map fun i => s.applyItemForCount i count progress

/-- The `Technique` trait object view of a `Stagger`. -/
def Stagger.toTechnique (s : Stagger) : Technique :=
  { name := "Stagger", duration := s.duration,
    apply := fun progress => s.applyItem 0 progress,
    applyItems := fun count progress => s.applyItems count progress }

/- ----------------------------------------------------------------------
Themes (src/moron-themes/src/theme.rs, defaults.rs).
---------------------------------------------------------------------- -/

structure ThemeColors where
  bg_primary : String
  bg_secondary : String
  bg_tertiary : String
  fg_primary : String
  fg_secondary : String
  fg_muted : String
  accent : String
  accent_hover : String
  accent_subtle : String
  success : String
  warning : String
  error : String
deriving DecidableEq

structure ThemeTypography where
  font_sans : String
  font_mono : String
  text_xs : String
  text_sm : String
  text_base : String
  text_lg : String
  text_xl : String
  text_2xl : String
  text_3xl : String
  text_4xl : String
  leading_tight : String
  leading_normal : String
  leading_relaxed : String
  font_weight_normal : String
  font_weight_medium : String
  font_weight_semibold : String
  font_weight_bold : String
deriving DecidableEq

structure ThemeSpacing where
  space_1 : String
  space_2 : String
  space_3 : String
  space_4 : String
  space_6 : String
  space_8 : String
  space_12 : String
  space_16 : String
  space_24 : String
  container_padding : String
  radius_sm : String
  radius_md : String
  radius_lg : String
  radius_full : String
deriving DecidableEq

structure ThemeTiming where
  duration_instant : String
  duration_fast : String
  duration_normal : String
  duration_slow : String
  duration_slower : String
  ease_default : String
  ease_in : String
  ease_out : String
  ease_in_out : String
  ease_spring : String
deriving DecidableEq

structure ThemeShadows where
  shadow_sm : String
  shadow_md : String
  shadow_lg : String
deriving DecidableEq

structure Theme where
  name : String
  colors : ThemeColors
  typography : ThemeTypography
  spacing : ThemeSpacing
  timing : ThemeTiming
  shadows : ThemeShadows
deriving DecidableEq

/-- `Theme::to_css_properties`: the ordered list of CSS custom property
pairs, in the push order of the source. -/
def Theme.toCssProperties (theme : Theme) : List (String × String) :=
  [("--moron-bg-primary", theme.colors.bg_primary),
   ("--moron-bg-secondary", theme.colors.bg_secondary),
   ("--moron-bg-tertiary", theme.colors.bg_tertiary),
   ("--moron-fg-primary", theme.colors.fg_primary),
   ("--moron-fg-secondary", theme.colors.fg_secondary),
   ("--moron-fg-muted", theme.colors.fg_muted),
   ("--moron-accent", theme.colors.accent),
   ("--moron-accent-hover", theme.colors.accent_hover),
   ("--moron-accent-subtle", theme.colors.accent_subtle),
   ("--moron-success", theme.colors.success),
   ("--moron-warning", theme.colors.warning),
   ("--moron-error", theme.colors.error),
   ("--moron-font-sans", theme.typography.font_sans),
   ("--moron-font-mono", theme.typography.font_mono),
   ("--moron-text-xs", theme.typography.text_xs),
   ("--moron-text-sm", theme.typography.text_sm),
   ("--moron-text-base", theme.typography.text_base),
   ("--moron-text-lg", theme.typography.text_lg),
   ("--moron-text-xl", theme.typography.text_xl),
   ("--moron-text-2xl", theme.typography.text_2xl),
   ("--moron-text-3xl", theme.typography.text_3xl),
   ("--moron-text-4xl", theme.typography.text_4xl),
   ("--moron-leading-tight", theme.typography.leading_tight),
   ("--moron-leading-normal", theme.typography.leading_normal),
   ("--moron-leading-relaxed", theme.typography.leading_relaxed),
   ("--moron-font-weight-normal", theme.typography.font_weight_normal),
   ("--moron-font-weight-medium", theme.typography.font_weight_medium),
   ("--moron-font-weight-semibold", theme.typography.font_weight_semibold),
   ("--moron-font-weight-bold", theme.typography.font_weight_bold),
   ("--moron-space-1", theme.spacing.space_1),
   ("--moron-space-2", theme.spacing.space_2),
   ("--moron-space-3", theme.spacing.space_3),
   ("--moron-space-4", theme.spacing.space_4),
   ("--moron-space-6", theme.spacing.space_6),
   ("--moron-space-8", theme.spacing.space_8),
   ("--moron-space-12", theme.spacing.space_12),
   ("--moron-space-16", theme.spacing.space_16),
   ("--moron-space-24", theme.spacing.space_24),
   ("--moron-container-padding", theme.spacing.container_padding),
   ("--moron-radius-sm", theme.spacing.radius_sm),
   ("--moron-radius-md", theme.spacing.radius_md),
   ("--moron-radius-lg", theme.spacing.radius_lg),
   ("--moron-radius-full", theme.spacing.radius_full),
   ("--moron-duration-instant", theme.timing.duration_instant),
   ("--moron-duration-fast", theme.timing.duration_fast),
   ("--moron-duration-normal", theme.timing.duration_normal),
   ("--moron-duration-slow", theme.timing.duration_slow),
   ("--moron-duration-slower", theme.timing.duration_slower),
   ("--moron-ease-default", theme.timing.ease_default),
   ("--moron-ease-in", theme.timing.ease_in),
   ("--moron-ease-out", theme.timing.ease_out),
   ("--moron-ease-in-out", theme.timing.ease_in_out),
   ("--moron-ease-spring", theme.timing.ease_spring),
   ("--moron-shadow-sm", theme.shadows.shadow_sm),
   ("--moron-shadow-md", theme.shadows.shadow_md),
   ("--moron-shadow-lg", theme.shadows.shadow_lg)]

/-- `Theme::default` (defaults.rs): the built-in "moron-dark" theme. -/
def Theme.default : Theme :=
  { name := "moron-dark",
    colors :=
      { bg_primary := "#0f172a", bg_secondary := "#1e293b", bg_tertiary := "#334155",
        fg_primary := "#f8fafc", fg_secondary := "#cbd5e1", fg_muted := "#64748b",
        accent := "#3b82f6", accent_hover := "#60a5fa",
        accent_subtle := "rgba(59, 130, 246, 0.15)",
        success := "#22c55e", warning := "#eab308", error := "#ef4444" },
    typography :=
      { font_sans := "\"Inter\", ui-sans-serif, system-ui, sans-serif",
        font_mono := "\"JetBrains Mono\", ui-monospace, monospace",
        text_xs := "0.75rem", text_sm := "0.875rem", text_base := "1rem",
        text_lg := "1.25rem", text_xl := "1.5rem", text_2xl := "2rem",
        text_3xl := "2.5rem", text_4xl := "3.5rem",
        leading_tight := "1.15", leading_normal := "1.5", leading_relaxed := "1.75",
        font_weight_normal := "400", font_weight_medium := "500",
        font_weight_semibold := "600", font_weight_bold := "700" },
    spacing :=
      { space_1 := "0.25rem", space_2 := "0.5rem", space_3 := "0.75rem",
        space_4 := "1rem", space_6 := "1.5rem", space_8 := "2rem",
        space_12 := "3rem", space_16 := "4rem", space_24 := "6rem",
        container_padding := "3rem",
        radius_sm := "0.25rem", radius_md := "0.5rem", radius_lg := "1rem",
        radius_full := "9999px" },
    timing :=
      { duration_instant := "0ms", duration_fast := "150ms",
        duration_normal := "300ms", duration_slow := "500ms",
        duration_slower := "800ms",
        ease_default := "cubic-bezier(0.4, 0, 0.2, 1)",
        ease_in := "cubic-bezier(0.4, 0, 1, 1)",
        ease_out := "cubic-bezier(0, 0, 0.2, 1)",
        ease_in_out := "cubic-bezier(0.4, 0, 0.2, 1)",
        ease_spring := "cubic-bezier(0.34, 1.56, 0.64, 1)" },
    shadows :=
      { shadow_sm := "0 1px 2px rgba(0, 0, 0, 0.3)",
        shadow_md := "0 4px 6px rgba(0, 0, 0, 0.3)",
        shadow_lg := "0 10px 15px rgba(0, 0, 0, 0.4)" } }

/- ----------------------------------------------------------------------
Facade (src/moron-core/src/facade.rs).  `ElementKind` is declared in
frame.rs in the source.  The TTS voice configuration field of `M` is
omitted: no modelled operation reads it.
---------------------------------------------------------------------- -/

/-- `ElementKind` (frame.rs). -/
inductive ElementKind where
  | Title
  | Show
  | Section
  | Metric (direction : String)
  | Steps (count : ℕ)
deriving DecidableEq

/-- `Direction` (facade.rs). -/
inductive Direction where
  | Up
  | Down
  | Neutral
deriving DecidableEq

/-- `BEAT_DURATION`. -/
def BEAT_DURATION : ℚ := 0.3

/-- `BREATH_DURATION`. -/
def BREATH_DURATION : ℚ := 0.8

/-- `DEFAULT_NARRATION_WPM`. -/
def DEFAULT_NARRATION_WPM : ℚ := 150

/-- The `Element` handle. -/
structure Element where
  id : ℕ
deriving DecidableEq

/-- `ElementRecord` (facade.rs). -/
structure ElementRecord where
  id : ℕ
  kind : ElementKind
  content : String
  items : List String
  createdAt : ℚ
  segmentsAtCreation : ℕ
  endedAt : Option ℚ
  segmentsAtEnd : Option ℕ
deriving DecidableEq

/-- `AnimationRecord` (facade.rs): boxed technique, target element ids,
anchored segment index. -/
structure AnimationRecord where
  technique : Technique
  targetIds : List ℕ
  segmentIndex : ℕ

/-- `ResolveDurationError` (facade.rs). -/
inductive ResolveDurationError where
  | lengthMismatch (expected provided : ℕ)
deriving DecidableEq

/-- The facade struct `M`. -/
structure M where
  nextElementId : ℕ
  currentTheme : Theme
  timeline : Timeline
  elements : List ElementRecord
  animations : List AnimationRecord

/-- `M::new`. -/
def M.new : M :=
  { nextElementId := 0, currentTheme := Theme.default,
    timeline := Timeline.default, elements := [], animations := [] }

/-- The word count of `M::narrate`: Rust
`text.split_whitespace().count().max(1)`. -/
def wordCount (text : String) : ℕ :=
  (((text.split fun c => c.isWhitespace).filter fun w => !w.isEmpty).length).max 1

/-- `M::narrate`: append a narration segment with the WPM duration
estimate `words * 60 / DEFAULT_NARRATION_WPM`. -/
def M.narrate (m : M) (text : String) : M :=
  let duration := (wordCount text : ℚ) * 60 / DEFAULT_NARRATION_WPM
  { m with timeline := m.timeline.addSegment (.narration text duration) }

/-- `M::mint_element_with_meta`. -/
def M.mintElementWithMeta (m : M) (kind : ElementKind) (content : String)
    (items : List String) : M × Element :=
  let id := m.nextElementId
  let createdAt := m.timeline.totalDuration
  let segmentsAtCreation := m.timeline.segments.length
  ({ m with
      nextElementId := id + 1,
      elements := m.elements ++
        [{ id := id, kind := kind, content := content, items := items,
           createdAt := createdAt, segmentsAtCreation := segmentsAtCreation,
           endedAt := none, segmentsAtEnd := none }] },
   { id := id })

/-- `M::title`. -/
def M.title (m : M) (text : String) : M × Element :=
  m.mintElementWithMeta .Title text []

/-- `M::show` (named `showText` here because `show` is a Lean keyword). -/
def M.showText (m : M) (text : String) : M × Element :=
  m.mintElementWithMeta .Show text []

/-- `M::section` (named `sectionText` here because `section` is a Lean
keyword). -/
def M.sectionText (m : M) (text : String) : M × Element :=
  m.mintElementWithMeta .Section text []

/-- `M::metric`: content is `"{label}: {value}"` with the direction tag. -/
def M.metric (m : M) (label value : String) (direction : Direction) : M × Element :=
  let dirStr := match direction with
    | .Up => "up"
    | .Down => "down"
    | .Neutral => "neutral"
  m.mintElementWithMeta (.Metric dirStr) (label ++ ": " ++ value) []

/-- `M::steps`. -/
def M.steps (m : M) (items : List String) : M × Element :=
  m.mintElementWithMeta (.Steps items.length) (String.intercalate ", " items) items

/-- `M::beat`. -/
def M.beat (m : M) : M :=
  { m with timeline := m.timeline.addSegment (.silence BEAT_DURATION) }

/-- `M::breath`. -/
def M.breath (m : M) : M :=
  { m with timeline := m.timeline.addSegment (.silence BREATH_DURATION) }

/-- `M::wait`: a silence segment of the caller-supplied duration (no sign
check in the source). -/
def M.wait (m : M) (duration : ℚ) : M :=
  { m with timeline := m.timeline.addSegment (.silence duration) }

/-- `M::clear`: stamp `ended_at`/`segments_at_end` on every element that
has no `ended_at` yet. -/
def M.clear (m : M) : M :=
  let now := m.timeline.totalDuration
  let segCount := m.timeline.segments.length
  { m with
      elements := m.elements.map fun rec =>
        if rec.endedAt = none then
          { rec with endedAt := some now, segmentsAtEnd := some segCount }
        else rec }

/-- `M::play`: record an animation segment and an `AnimationRecord`
targeting the most recently created element (empty target set if none). -/
def M.play (m : M) (technique : Technique) : M :=
  let segmentIndex := m.timeline.segments.length
  let targetIds := match m.elements.getLast? with
    | some e => [e.id]
    | none => []
  { m with
      timeline := m.timeline.addSegment (.animation technique.name technique.duration),
      animations := m.animations ++
        [{ technique := technique, targetIds := targetIds, segmentIndex := segmentIndex }] }

/-- `M::theme`. -/
def M.theme (m : M) (theme : Theme) : M := { m with currentTheme := theme }

/-- `M::narration_count`. -/
def M.narrationCount (m : M) : ℕ := m.timeline.narrationIndices.length

/-- `M::resolve_narration_durations`.  The `&mut self`/`Result` pair is
modelled by returning both the `Result` and the final state; the error
path performs no writes, so the input state is returned unchanged there. -/
def M.resolveNarrationDurations (m : M) (durations : List ℚ) :
    Except ResolveDurationError Unit × M :=
  let indices := m.timeline.narrationIndices
  if durations.length ≠ indices.length then
    (.error (.lengthMismatch indices.length durations.length), m)
  else
    let timeline' := (indices.zip durations).foldl
      (fun tl p => (tl.updateSegmentDuration p.1 p.2).1) m.timeline
    let elements' := m.elements.map fun rec =>
      { rec with
          createdAt := ((timeline'.segments.take rec.segmentsAtCreation).map
            Segment.duration).sum,
          endedAt := match rec.segmentsAtEnd with
            | some segCount =>
                some (((timeline'.segments.take segCount).map Segment.duration).sum)
            | none => rec.endedAt }
    (.ok (), { m with timeline := timeline', elements := elements' })

/- ----------------------------------------------------------------------
Frame-state computation (src/moron-core/src/frame.rs).
---------------------------------------------------------------------- -/

structure ItemState where
  text : String
  opacity : ℚ
  translateX : ℚ
  translateY : ℚ
  scale : ℚ
  rotation : ℚ
deriving DecidableEq

/-- `ItemState::new`: default (fully visible) transforms. -/
def ItemState.new (text : String) : ItemState :=
  { text := text, opacity := 1, translateX := 0, translateY := 0,
    scale := 1, rotation := 0 }

structure ElementState where
  id : ℕ
  kind : ElementKind
  content : String
  items : List ItemState
  visible : Bool
  opacity : ℚ
  translateX : ℚ
  translateY : ℚ
  scale : ℚ
  rotation : ℚ
  layoutY : ℚ
deriving DecidableEq

/-- The content of the Rust `HashMap<String, String>` collected from a
pair iterator: the key-lookup function, later inserts overwriting earlier
ones.  Iteration order of the Rust map is unspecified and therefore not
part of the model. -/
def buildHashMap (pairs : List (String × String)) : String → Option String :=
  pairs.foldl (fun m kv => fun k => if k = kv.1 then some kv.2 else m k)
    (fun _ => none)

/-- `ThemeState` (frame.rs); `css_properties` is the `HashMap` content. -/
structure ThemeState where
  name : String
  cssProperties : String → Option String

structure FrameState where
  time : ℚ
  frame : ℕ
  totalDuration : ℚ
  fps : ℕ
  elements : List ElementState
  activeNarration : Option String
  theme : ThemeState

/-- The absolute start of the segment at `idx`: the sum of the durations
of all segments with index `< idx` (the `seg_start` of `apply_animations`
and the recomputation target of duration resolution). -/
def segAbsStart (segments : List Segment) (idx : ℕ) : ℚ :=
  ((segments.take idx).map Segment.duration).sum

/-- The progress computation of `apply_animations`: `0` before the
segment's window, `1` at/after its end or when its duration is `<= 0`,
linear in between.  The source indexes `segments[idx]` directly (panics
out of bounds, which `M::play` makes unreachable); the model defaults the
duration to `0` there. -/
def animationProgress (segments : List Segment) (idx : ℕ) (time : ℚ) : ℚ :=
  let segStart := segAbsStart segments idx
  let segDuration := (segments[idx]?.map Segment.duration).getD 0
  let segEnd := segStart + segDuration
  if time < segStart then 0
  else if time ≥ segEnd ∨ segDuration ≤ 0 then 1
  else (time - segStart) / segDuration

/-- The per-item write loop of `apply_animations`: item `i` takes output
`i`; items beyond the outputs (and outputs beyond the items) are
dropped/ignored exactly as the `i < items.len()` guard does. -/
def updateItems : List ItemState → List TechniqueOutput → List ItemState
  | [], _ => []
  | items, [] => items
  | item :: items, out :: outs =>
      { item with
          opacity := out.opacity, translateX := out.translateX,
          translateY := out.translateY, scale := out.scale,
          rotation := out.rotation } :: updateItems items outs

/-- Writing one technique evaluation into one (visible, targeted)
element: per-item transforms for Steps-like elements (element-level
transform left at its defaults), element-level transform otherwise. -/
def applyOutputToElement (tech : Technique) (progress : ℚ) (el : ElementState) :
    ElementState :=
  if el.items.length > 0 then
    { el with items := updateItems el.items (tech.applyItems el.items.length progress) }
  else
    let out := tech.apply progress
    { el with
        opacity := out.opacity, translateX := out.translateX,
        translateY := out.translateY, scale := out.scale,
        rotation := out.rotation }

/-- One `AnimationRecord` pass of `apply_animations`: every targeted and
currently-visible element receives the technique output at this record's
progress.  (The source resolves targets through a freshly built id→index
map; with the unique ids minted by the facade this is the same as
matching on `el.id`.) -/
def applyAnimationRecord (segments : List Segment) (time : ℚ)
    (els : List ElementState) (record : AnimationRecord) : List ElementState :=
  let progress := animationProgress segments record.segmentIndex time
  els.map fun el =>
    if record.targetIds.contains el.id && el.visible then
      applyOutputToElement record.technique progress el
    else el

/-- `apply_animations`: all records in order, later records overwriting
earlier ones. -/
def applyAnimations (m : M) (time : ℚ) (els : List ElementState) :
    List ElementState :=
  m.animations.foldl (applyAnimationRecord m.timeline.segments time) els

/-- `is_header`: Title and Section are headers. -/
def isHeader : ElementKind → Bool
  | .Title => true
  | .Section => true
  | _ => false

/-- The first partition predicate of `assign_layout_positions`: a
visible header-kind element (Title, Section). -/
def visibleHeader (e : ElementState) : Bool := e.visible && isHeader e.kind

/-- The second partition predicate of `assign_layout_positions`: a
visible body-kind element (Show, Metric, Steps). -/
def visibleBody (e : ElementState) : Bool := e.visible && !isHeader e.kind

/-- The `positions` vector of `assign_layout_positions` for a visible
count (the source's `match`): `[0.5]`, `[0.3, 0.65]`, or evenly spaced
`0.2 + 0.6 * i/(n-1)` (the source's inner `n == 1` test inside the third
arm is dead code). -/
def layoutPositions (n : ℕ) : List ℚ :=
  if n = 1 then [0.5]
  else if n = 2 then [0.3, 0.65]
  else (List.range n).map fun (i : ℕ) =>
    if n = 1 then 0.5 else 0.2 + 0.6 * (i : ℚ) / ((n - 1 : ℕ) : ℚ)

/-- The merged index list of `assign_layout_positions`: indices of
visible headers (in creation order) followed by indices of visible
bodies (in creation order). -/
def sortedIndices (els : List ElementState) : List ℕ :=
  indicesWhere visibleHeader els ++ indicesWhere visibleBody els

/-- `assign_layout_positions`: visible elements partitioned into headers
then bodies (each group in creation order) receive the slot positions;
everything else is untouched. -/
def assignLayoutPositions (els : List ElementState) : List ElementState :=
  let sorted := sortedIndices els
  let count := sorted.length
  if count = 0 then els
  else
    foldSet (fun y e => { e with layoutY := y }) els
      (sorted.zip (layoutPositions count))

/-- `find_active_narration`: first narration segment among
`segments_in_range(time, time + epsilon)`. -/
def findActiveNarration (tl : Timeline) (time epsilon : ℚ) : Option String :=
  (tl.segmentsInRange time (time + epsilon)).findSome? fun hit =>
    match hit.2 with
    | .narration text _ => some text
    | _ => none

/-- The initial `ElementState` built from one `ElementRecord` at the
clamped time (step 2 of `compute_frame_state`), including the visibility
rule `created_at <= t && ended_at.is_none_or(|e| t < e)`. -/
def initialElementState (rec : ElementRecord) (clampedTime : ℚ) : ElementState :=
  let visible : Bool :=
    decide (rec.createdAt ≤ clampedTime) &&
      rec.endedAt.all fun e => decide (clampedTime < e)
  { id := rec.id, kind := rec.kind, content := rec.content,
    items := rec.items.map ItemState.new,
    visible := visible,
    opacity := if visible then 1 else 0,
    translateX := 0, translateY := 0,
    scale := if visible then 1 else 0,
    rotation := 0, layoutY := 0.5 }

/-- Rust `f64::clamp(x, lo, hi)`: `none` models the `assert!(lo <= hi)`
panic. -/
def f64Clamp (x lo hi : ℚ) : Option ℚ :=
  if lo ≤ hi then some (if x < lo then lo else if x > hi then hi else x)
  else none

/-- `compute_frame_state`.  Returns `none` exactly when the Rust code
panics in `time.clamp(0.0, total_duration)`, i.e. when the total duration
is negative. -/
def computeFrameState (m : M) (time : ℚ) : Option FrameState :=
  let totalDuration := m.timeline.totalDuration
  let fps := m.timeline.fps
  (f64Clamp time 0 totalDuration).map fun clampedTime =>
    let frame := m.timeline.frameAt clampedTime
    let els0 := m.elements.map fun rec => initialElementState rec clampedTime
    let els1 := applyAnimations m clampedTime els0
    let els2 := assignLayoutPositions els1
    let epsilon := 1 / (fps : ℚ) / 2
    let activeNarration := findActiveNarration m.timeline clampedTime epsilon
    { time := clampedTime, frame := frame, totalDuration := totalDuration,
      fps := fps, elements := els2, activeNarration := activeNarration,
      theme := { name := m.currentTheme.name,
                 cssProperties := buildHashMap m.currentTheme.toCssProperties } }

/- ----------------------------------------------------------------------
The public authoring surface as a reified operation language (for the
reachability quantification of the duration invariant): each constructor
is one facade call, executed by `M.applyOp`.
---------------------------------------------------------------------- -/

inductive AuthOp where
  | narrate (text : String)
  | title (text : String)
  | showOp (text : String)
  | sectionOp (text : String)
  | metric (label value : String) (direction : Direction)
  | steps (items : List String)
  | beat
  | breath
  | wait (duration : ℚ)
  | play (technique : Technique)
  | clear
  | resolve (durations : List ℚ)

/-- Execute one authoring call (element handles are discarded; the error
of a failed duration resolution is discarded, keeping its final state). -/
def M.applyOp (m : M) : AuthOp → M
  | .narrate text => m.narrate text
  | .title text => (m.title text).1
  | .showOp text => (m.showText text).1
  | .sectionOp text => (m.sectionText text).1
  | .metric label value direction => (m.metric label value direction).1
  | .steps items => (m.steps items).1
  | .beat => m.beat
  | .breath => m.breath
  | .wait duration => m.wait duration
  | .play technique => m.play technique
  | .clear => m.clear
  | .resolve durations => (m.resolveNarrationDurations durations).2

/-- Run a whole authoring script. -/
def M.runOps (m : M) (ops : List AuthOp) : M := ops.foldl M.applyOp m

/-- Nonnegativity of the caller-supplied durations of one authoring call
(the amendment hypothesis for the duration invariant). -/
def AuthOp.nonneg : AuthOp → Bool
  | .wait d => decide (0 ≤ d)
  | .play t => decide (0 ≤ t.duration)
  | .resolve ds => ds.all fun d => decide (0 ≤ d)
  | _ => true

/- ----------------------------------------------------------------------
Claim-side (specification) definitions, written from the spec's words, to
be compared with the embedded code.
---------------------------------------------------------------------- -/

/-- Structural description of the segment list after duration resolution:
each narration segment takes the next supplied duration, every other
segment is untouched. -/
def resolveSegs : List Segment → List ℚ → List Segment
  | [], _ => []
  | seg :: rest, ds =>
      if seg.isNarration then
        match ds with
        | d :: ds' => seg.withDuration d :: resolveSegs rest ds'
        | [] => seg :: resolveSegs rest []
      else seg :: resolveSegs rest ds

/-- Every segment of a list paired with its absolute start time, scanning
from `cursor` (the spec's reading of "segments with their start times"). -/
def segmentStarts (cursor : ℚ) : List Segment → List (ℚ × Segment)
  | [] => []
  | seg :: rest => (cursor, seg) :: segmentStarts (cursor + seg.duration) rest

/-- Nonempty intersection of the half-open intervals `[s, s + d)` and
`[a, b)` — the set-level "intersects" of the spec. -/
def intervalsIntersect (s d a b : ℚ) : Prop :=
  ∃ x : ℚ, (s ≤ x ∧ x < s + d) ∧ (a ≤ x ∧ x < b)

/-- Modelled from the spec (claim C7): the stagger per-item formula with
the total duration `inner.duration() + delay * (n - 1)` taken from the
actual item count, `item_start = delay * i / total` (`0` when `n ≤ 1`),
`item_span = inner.duration() / total`, and the three-way output rule.
The spec formula has no guard for `total ≤ 0`. -/
def staggerApplyItemsSpec (s : Stagger) (n : ℕ) (p : ℚ) : List TechniqueOutput :=
  (List.range n).map fun (i : ℕ) =>
    let total := s.inner.duration + s.delay * ((n - 1 : ℕ) : ℚ)
    let itemStart : ℚ := if n ≤ 1 then 0 else s.delay * (i : ℚ) / total
    let itemSpan := s.inner.duration / total
    if p ≤ itemStart then s.inner.apply 0
    else if p ≥ itemStart + itemSpan then s.inner.apply 1
    else s.inner.apply ((p - itemStart) / itemSpan)

/-- Modelled from the spec (claim C6): the layout position of slot `slot`
among `n` visible elements: `0.5` for a single element, `0.3`/`0.65` for
two, `0.2 + 0.6 * slot/(n-1)` for three or more. -/
def claimLayoutY (n slot : ℕ) : ℚ :=
  if n = 1 then 0.5
  else if n = 2 then (if slot = 0 then 0.3 else 0.65)
  else 0.2 + 0.6 * (slot : ℚ) / ((n - 1 : ℕ) : ℚ)

/- ----------------------------------------------------------------------
Concrete scenes and values used to instantiate the universally
quantified results below.
---------------------------------------------------------------------- -/

/-- A scene with two narrations (and elements before, between, and a
final clear): title "A", narrate "x", show "B", wait 0.5, narrate "y",
clear. -/
def mTwoNarr : M :=
  (((((M.new.title "A").1.narrate "x").showText "B").1.wait 0.5).narrate "y").clear

/-- A scene with two narrations and no elements. -/
def mNarrOnly : M := (M.new.narrate "one").narrate "two"

/-- A scene whose timeline has a negative total duration (a single
`wait(-1.0)` call). -/
def mNegWait : M := M.new.wait (-1)

/-- A scene with a negative total duration that also holds an element
record: `wait(-1.0)` then `title("T")`. -/
def mNegWaitTitle : M := ((M.new.wait (-1)).title "T").1

/-- The element record minted by `mNegWaitTitle` (created at timeline
position `-1`, one existing segment). -/
def recNegWaitTitle : ElementRecord :=
  { id := 0, kind := .Title, content := "T", items := [], createdAt := -1,
    segmentsAtCreation := 1, endedAt := none, segmentsAtEnd := none }

/-- A scene with one silence then one element. -/
def mWaitTitle : M := ((M.new.wait 1).title "T").1

/-- The fixed key sequence of `Theme::to_css_properties` (independent of
the theme's values). -/
def cssKeys : List String :=
  ["--moron-bg-primary", "--moron-bg-secondary", "--moron-bg-tertiary",
   "--moron-fg-primary", "--moron-fg-secondary", "--moron-fg-muted",
   "--moron-accent", "--moron-accent-hover", "--moron-accent-subtle",
   "--moron-success", "--moron-warning", "--moron-error",
   "--moron-font-sans", "--moron-font-mono", "--moron-text-xs",
   "--moron-text-sm", "--moron-text-base", "--moron-text-lg",
   "--moron-text-xl", "--moron-text-2xl", "--moron-text-3xl",
   "--moron-text-4xl", "--moron-leading-tight", "--moron-leading-normal",
   "--moron-leading-relaxed", "--moron-font-weight-normal",
   "--moron-font-weight-medium", "--moron-font-weight-semibold",
   "--moron-font-weight-bold", "--moron-space-1", "--moron-space-2",
   "--moron-space-3", "--moron-space-4", "--moron-space-6",
   "--moron-space-8", "--moron-space-12", "--moron-space-16",
   "--moron-space-24", "--moron-container-padding", "--moron-radius-sm",
   "--moron-radius-md", "--moron-radius-lg", "--moron-radius-full",
   "--moron-duration-instant", "--moron-duration-fast",
   "--moron-duration-normal", "--moron-duration-slow",
   "--moron-duration-slower", "--moron-ease-default", "--moron-ease-in",
   "--moron-ease-out", "--moron-ease-in-out", "--moron-ease-spring",
   "--moron-shadow-sm", "--moron-shadow-md", "--moron-shadow-lg"]

/-- The element record minted by `mWaitTitle` (created after 1s of
timeline, one existing segment). -/
def recWaitTitle : ElementRecord :=
  { id := 0, kind := .Title, content := "T", items := [], createdAt := 1,
    segmentsAtCreation := 1, endedAt := none, segmentsAtEnd := none }

/-- A segment list with a silence then an animation segment. -/
def segsAnim : List Segment := [.silence 1, .animation "A" 2]

/-- A segment list with a silence then a zero-duration animation
segment. -/
def segsAnimZero : List Segment := [.silence 1, .animation "A" 0]

/-- A timeline containing a zero-duration segment strictly inside the
occupied range. -/
def tlZeroSeg : Timeline :=
  { segments := [.silence 1, .silence 0, .silence 1], fps := 30 }

/-- A degenerate stagger: zero-duration inner technique, zero delay. -/
def stZero : Stagger := { inner := FadeIn 0, delay := 0, count := 1 }

/-- A regular stagger: FadeIn over 0.5s, delay 0.1s. -/
def stHalf : Stagger := { inner := FadeIn 0.5, delay := 0.1, count := 1 }

/-- A visible body element state with default transforms. -/
def bodyEl (id : ℕ) (content : String) : ElementState :=
  { id := id, kind := .Show, content := content, items := [], visible := true,
    opacity := 1, translateX := 0, translateY := 0, scale := 1, rotation := 0,
    layoutY := 0.5 }

/-- A visible header (title) element state with default transforms. -/
def headerEl (id : ℕ) (content : String) : ElementState :=
  { id := id, kind := .Title, content := content, items := [], visible := true,
    opacity := 1, translateX := 0, translateY := 0, scale := 1, rotation := 0,
    layoutY := 0.5 }

/-- Three element states (a body, a header, a body) as they appear at the
layout stage, with the header authored after a body. -/
def elsLayout : List ElementState :=
  [bodyEl 0 "b0", headerEl 1 "h0", bodyEl 2 "b1"]

/- ----------------------------------------------------------------------
Helper lemmas: indexed in-place updates.
---------------------------------------------------------------------- -/

theorem setAtList_getElem? (l : List α) (i j : ℕ) (f : α → α) :
    (setAtList l i f)[j]? = if j = i then l[i]?.map f else l[j]? := by
  induction l generalizing i j with
  | nil => simp [setAtList]
  | cons a t ih =>
    cases i with
    | zero =>
      cases j with
      | zero => simp [setAtList]
      | succ j' => simp [setAtList]
    | succ i' =>
      cases j with
      | zero => simp [setAtList]
      | succ j' => simp [setAtList, ih]

theorem foldSet_getElem?_not_mem (f : γ → α → α) (l : List α) (ps : List (ℕ × γ))
    (i : ℕ) (h : i ∉ ps.map Prod.fst) :
    (foldSet f l ps)[i]? = l[i]? := by
  induction ps generalizing l with
  | nil => rfl
  | cons q ps' ih =>
    simp only [List.map_cons, List.mem_cons, not_or] at h
    show (foldSet f (setAtList l q.1 (f q.2)) ps')[i]? = l[i]?
    rw [ih _ h.2, setAtList_getElem?, if_neg h.1]

theorem foldSet_getElem?_mem (f : γ → α → α) (l : List α) (ps : List (ℕ × γ))
    (i : ℕ) (c : γ) (hnd : (ps.map Prod.fst).Nodup) (hmem : (i, c) ∈ ps) :
    (foldSet f l ps)[i]? = l[i]?.map (f c) := by
  induction ps generalizing l with
  | nil => simp at hmem
  | cons q ps' ih =>
    simp only [List.map_cons, List.nodup_cons] at hnd
    rcases List.mem_cons.mp hmem with heq | htail
    · subst heq
      show (foldSet f (setAtList l i (f c)) ps')[i]? = l[i]?.map (f c)
      rw [foldSet_getElem?_not_mem _ _ _ _ hnd.1, setAtList_getElem?, if_pos rfl]
    · have hne : i ≠ q.1 := by
        intro hiq
        exact hnd.1 (hiq ▸ List.mem_map.mpr ⟨(i, c), htail, rfl⟩)
      show (foldSet f (setAtList l q.1 (f q.2)) ps')[i]? = l[i]?.map (f c)
      rw [ih _ hnd.2 htail, setAtList_getElem?, if_neg hne]

theorem foldSet_getElem?_proj (f : γ → α → α) (proj : α → β)
    (hf : ∀ c a, proj (f c a) = proj a) (l : List α) (ps : List (ℕ × γ)) (i : ℕ) :
    ((foldSet f l ps)[i]?).map proj = (l[i]?).map proj := by
  induction ps generalizing l with
  | nil => rfl
  | cons q ps' ih =>
    show ((foldSet f (setAtList l q.1 (f q.2)) ps')[i]?).map proj = _
    rw [ih, setAtList_getElem?]
    by_cases hiq : i = q.1
    · rw [if_pos hiq, hiq, Option.map_map]
      cases h : l[q.1]? <;> simp [hf]
    · rw [if_neg hiq]

theorem foldSet_cons_shift (f : γ → α → α) (a : α) (l : List α)
    (ps : List (ℕ × γ)) :
    foldSet f (a :: l) (ps.map fun q => (q.1 + 1, q.2)) = a :: foldSet f l ps := by
  induction ps generalizing l with
  | nil => rfl
  | cons q ps' ih =>
    show foldSet f (setAtList (a :: l) (q.1 + 1) (f q.2)) _ = _
    show foldSet f (a :: setAtList l q.1 (f q.2)) _ = _
    rw [ih]
    rfl

theorem foldSet_length (f : γ → α → α) (l : List α) (ps : List (ℕ × γ)) :
    (foldSet f l ps).length = l.length := by
  have hset : ∀ (m : List α) (i : ℕ) (g : α → α), (setAtList m i g).length = m.length := by
    intro m
    induction m with
    | nil => intro i g; rfl
    | cons a t ih =>
      intro i g
      cases i with
      | zero => rfl
      | succ i' => simpa [setAtList] using ih i' g
  induction ps generalizing l with
  | nil => rfl
  | cons q ps' ih =>
    show (foldSet f (setAtList l q.1 (f q.2)) ps').length = l.length
    rw [ih, hset]

/- ----------------------------------------------------------------------
Helper lemmas: `indicesWhere` and `indexOf`.
---------------------------------------------------------------------- -/

theorem mem_indicesWhere {p : α → Bool} {l : List α} {i : ℕ} :
    i ∈ indicesWhere p l ↔ ∃ a, l[i]? = some a ∧ p a = true := by
  induction l generalizing i with
  | nil => simp [indicesWhere]
  | cons a t ih =>
    cases i with
    | zero =>
      by_cases hp : p a <;> simp [indicesWhere, hp]
    | succ i' =>
      by_cases hp : p a <;> simp [indicesWhere, hp, ih]

theorem length_indicesWhere (p : α → Bool) (l : List α) :
    (indicesWhere p l).length = l.countP p := by
  induction l with
  | nil => simp [indicesWhere]
  | cons a t ih =>
    by_cases hp : p a
    · simp [indicesWhere, hp, ih, List.countP_cons]
    · simp [indicesWhere, hp, ih, List.countP_cons]

theorem nodup_indicesWhere (p : α → Bool) (l : List α) :
    (indicesWhere p l).Nodup := by
  induction l with
  | nil => simp [indicesWhere]
  | cons a t ih =>
    have hmap : ((indicesWhere p t).map (· + 1)).Nodup :=
      ih.map fun x y hxy => by omega
    by_cases hp : p a <;> simp [indicesWhere, hp, hmap]

theorem indexOf_map_succ (l : List ℕ) (i : ℕ) :
    (l.map (· + 1)).indexOf (i + 1) = l.indexOf i := by
  induction l with
  | nil => rfl
  | cons a t ih =>
    by_cases hia : a = i
    · subst hia
      rw [List.map_cons, List.indexOf_cons_eq _ rfl, List.indexOf_cons_eq _ rfl]
    · rw [List.map_cons, List.indexOf_cons_ne _ (by omega),
        List.indexOf_cons_ne _ hia, ih]

theorem indexOf_indicesWhere {p : α → Bool} {l : List α} {i : ℕ} {a : α}
    (h : l[i]? = some a) (hp : p a = true) :
    (indicesWhere p l).indexOf i = (l.take i).countP p := by
  induction l generalizing i with
  | nil => simp at h
  | cons b t ih =>
    cases i with
    | zero =>
      simp only [List.getElem?_cons_zero, Option.some.injEq] at h
      subst h
      simp [indicesWhere, hp]
    | succ i' =>
      simp only [List.getElem?_cons_succ] at h
      by_cases hb : p b
      · have hiw : indicesWhere p (b :: t) = 0 :: (indicesWhere p t).map (· + 1) := by
          simp [indicesWhere, hb]
        rw [hiw, List.indexOf_cons_ne _ (by omega), indexOf_map_succ, ih h]
        simp [List.countP_cons, hb]
      · have hiw : indicesWhere p (b :: t) = (indicesWhere p t).map (· + 1) := by
          simp [indicesWhere, hb]
        rw [hiw, indexOf_map_succ, ih h]
        simp [List.countP_cons, hb]

theorem getElem?_zip {l1 : List α} {l2 : List β} {n : ℕ} {a : α} {b : β}
    (h1 : l1[n]? = some a) (h2 : l2[n]? = some b) :
    (l1.zip l2)[n]? = some (a, b) := by
  induction l1 generalizing l2 n with
  | nil => simp at h1
  | cons x t ih =>
    cases l2 with
    | nil => simp at h2
    | cons y u =>
      cases n with
      | zero =>
        simp only [List.getElem?_cons_zero, Option.some.injEq] at h1 h2
        simp [List.zip_cons_cons, h1, h2]
      | succ n' =>
        simp only [List.getElem?_cons_succ] at h1 h2
        simp [List.zip_cons_cons, ih h1 h2]

/- ----------------------------------------------------------------------
Clamp lemmas.
---------------------------------------------------------------------- -/

theorem clamp01_idem (p : ℚ) : clamp01 (clamp01 p) = clamp01 p := by
  unfold clamp01
  split_ifs <;> linarith

theorem clamp01_nonneg (p : ℚ) : 0 ≤ clamp01 p := by
  unfold clamp01
  split_ifs <;> linarith

theorem clamp01_le_one (p : ℚ) : clamp01 p ≤ 1 := by
  unfold clamp01
  split_ifs <;> linarith

/-- C10: for every built-in technique (FadeIn, FadeUp, Slide, Scale,
CountUp) and every progress value `p` — including values below 0 and
above 1 — `apply p` equals `apply (clamp01 p)`, and consequently the
output never leaves the endpoint range (FadeIn's opacity stays in
`[0, 1]`). -/
theorem c10_builtin_techniques_clamp (dur dist ox oy from_ to_ p : ℚ) :
    (FadeIn dur).apply p = (FadeIn dur).apply (clamp01 p) ∧
    (FadeUp dur dist).apply p = (FadeUp dur dist).apply (clamp01 p) ∧
    (Slide dur ox oy).apply p = (Slide dur ox oy).apply (clamp01 p) ∧
    (ScaleT dur from_ to_).apply p = (ScaleT dur from_ to_).apply (clamp01 p) ∧
    (CountUp dur from_ to_).apply p = (CountUp dur from_ to_).apply (clamp01 p) ∧
    0 ≤ ((FadeIn dur).apply p).opacity ∧ ((FadeIn dur).apply p).opacity ≤ 1 := by
  refine ⟨?_, ?_, ?_, ?_, ?_, ?_, ?_⟩ <;>
    simp only [FadeIn, FadeUp, Slide, ScaleT, CountUp, mkTechnique, clamp01_idem]
  · exact clamp01_nonneg p
  · exact clamp01_le_one p

/- ----------------------------------------------------------------------
C2: length-mismatch error and atomicity of duration resolution.
---------------------------------------------------------------------- -/

/-- C2: when the supplied duration count differs from the number of
narration segments, `resolve_narration_durations` reports
`LengthMismatch{expected, provided}` and returns the state completely
unchanged (every segment duration and element timestamp included). -/
theorem c2_length_mismatch_atomic (m : M) (durations : List ℚ)
    (h : durations.length ≠ m.timeline.segments.countP Segment.isNarration) :
    m.resolveNarrationDurations durations =
      (.error (.lengthMismatch (m.timeline.segments.countP Segment.isNarration)
        durations.length), m) := by
  have hlen : m.timeline.narrationIndices.length =
      m.timeline.segments.countP Segment.isNarration := by
    unfold Timeline.narrationIndices
    exact length_indicesWhere _ _
  unfold M.resolveNarrationDurations
  dsimp only
  rw [hlen, if_pos h]

/-- Witness for C2: two narrations, three supplied durations. -/
theorem c2_witness :
    ([1, 2, 3] : List ℚ).length ≠
      mNarrOnly.timeline.segments.countP Segment.isNarration ∧
    mNarrOnly.resolveNarrationDurations [1, 2, 3] =
      (.error (.lengthMismatch (mNarrOnly.timeline.segments.countP Segment.isNarration)
        ([1, 2, 3] : List ℚ).length), mNarrOnly) :=
  ⟨by decide, c2_length_mismatch_atomic mNarrOnly [1, 2, 3] (by decide)⟩

/- ----------------------------------------------------------------------
Duration resolution: the indexed-update loop equals the structural
description `resolveSegs`.
---------------------------------------------------------------------- -/

theorem Segment.withDuration_duration (s : Segment) (d : ℚ) :
    (s.withDuration d).duration = d := by
  cases s <;> rfl

theorem Segment.withDuration_isNarration (s : Segment) (d : ℚ) :
    (s.withDuration d).isNarration = s.isNarration := by
  cases s <;> rfl

theorem fold_updateSegmentDuration (tl : Timeline) (ps : List (ℕ × ℚ)) :
    ps.foldl (fun t p => (t.updateSegmentDuration p.1 p.2).1) tl =
      { tl with segments := foldSet (fun d seg => seg.withDuration d) tl.segments ps } := by
  induction ps generalizing tl with
  | nil => rfl
  | cons q ps' ih =>
    show ps'.foldl _ ((tl.updateSegmentDuration q.1 q.2).1) = _
    rw [ih]
    rfl

theorem foldSet_cons (f : γ → α → α) (l : List α) (q : ℕ × γ)
    (ps : List (ℕ × γ)) :
    foldSet f l (q :: ps) = foldSet f (setAtList l q.1 (f q.2)) ps := rfl

theorem foldSet_narr_eq_resolveSegs (segs : List Segment) (ds : List ℚ)
    (h : ds.length = (indicesWhere Segment.isNarration segs).length) :
    foldSet (fun d seg => seg.withDuration d) segs
      ((indicesWhere Segment.isNarration segs).zip ds) = resolveSegs segs ds := by
  induction segs generalizing ds with
  | nil =>
    cases ds <;> rfl
  | cons s rest ih =>
    cases hn : s.isNarration with
    | true =>
      have hiw : indicesWhere Segment.isNarration (s :: rest) =
          0 :: (indicesWhere Segment.isNarration rest).map (· + 1) := by
        simp [indicesWhere, hn]
      rw [hiw] at h ⊢
      cases ds with
      | nil => simp at h
      | cons d ds' =>
        have h' : ds'.length = (indicesWhere Segment.isNarration rest).length := by
          simpa using h
        rw [List.zip_cons_cons, List.zip_map_left, foldSet_cons]
        have hset : setAtList (s :: rest) (0, d).1
            ((fun d seg => seg.withDuration d) (0, d).2) =
            s.withDuration d :: rest := rfl
        rw [hset]
        have hmapeq :
            ((indicesWhere Segment.isNarration rest).zip ds').map
                (Prod.map (· + 1) id) =
              ((indicesWhere Segment.isNarration rest).zip ds').map
                fun q => (q.1 + 1, q.2) := by
          simp [Prod.map]
        rw [hmapeq, foldSet_cons_shift, ih ds' h']
        simp [resolveSegs, hn]
    | false =>
      have hiw : indicesWhere Segment.isNarration (s :: rest) =
          (indicesWhere Segment.isNarration rest).map (· + 1) := by
        simp [indicesWhere, hn]
      rw [hiw] at h ⊢
      rw [List.zip_map_left]
      have hmapeq :
          ((indicesWhere Segment.isNarration rest).zip ds).map
              (Prod.map (· + 1) id) =
            ((indicesWhere Segment.isNarration rest).zip ds).map
              fun q => (q.1 + 1, q.2) := by
        simp [Prod.map]
      rw [hmapeq, foldSet_cons_shift, ih ds (by simpa using h)]
      simp [resolveSegs, hn]

theorem resolveSegs_sum (segs : List Segment) (ds : List ℚ)
    (h : ds.length = segs.countP Segment.isNarration) :
    ((resolveSegs segs ds).map Segment.duration).sum =
      ((segs.filter fun s => !s.isNarration).map Segment.duration).sum + ds.sum := by
  induction segs generalizing ds with
  | nil =>
    have hnil : ds = [] := List.eq_nil_of_length_eq_zero (by simpa using h)
    subst hnil
    simp [resolveSegs]
  | cons s rest ih =>
    cases hn : s.isNarration with
    | true =>
      rw [List.countP_cons, hn] at h
      cases ds with
      | nil => simp at h
      | cons d ds' =>
        have h' : ds'.length = rest.countP Segment.isNarration := by
          simpa using h
        simp only [resolveSegs, hn, if_pos, List.map_cons, List.sum_cons,
          Segment.withDuration_duration, List.filter_cons, Bool.not_true,
          Bool.false_eq_true, if_false, ih ds' h']
        ring
    | false =>
      rw [List.countP_cons, hn] at h
      have h' : ds.length = rest.countP Segment.isNarration := by
        simpa using h
      simp only [resolveSegs, hn, Bool.false_eq_true, if_false, List.map_cons,
        List.sum_cons, List.filter_cons, Bool.not_false, if_true, ih ds h']
      ring

theorem resolveSegs_getElem?_not_narr (segs : List Segment) (ds : List ℚ)
    (i : ℕ) (s : Segment) (hg : segs[i]? = some s) (hn : s.isNarration = false) :
    (resolveSegs segs ds)[i]? = some s := by
  induction segs generalizing ds i with
  | nil => simp at hg
  | cons a rest ih =>
    cases ha : a.isNarration with
    | true =>
      cases ds with
      | nil =>
        cases i with
        | zero =>
          simp only [List.getElem?_cons_zero, Option.some.injEq] at hg
          subst hg
          simp [resolveSegs, ha]
        | succ i' =>
          simp only [List.getElem?_cons_succ] at hg
          simp [resolveSegs, ha, ih _ _ hg]
      | cons d ds' =>
        cases i with
        | zero =>
          simp only [List.getElem?_cons_zero, Option.some.injEq] at hg
          subst hg
          rw [ha] at hn
          simp at hn
        | succ i' =>
          simp only [List.getElem?_cons_succ] at hg
          simp [resolveSegs, ha, ih _ _ hg]
    | false =>
      cases i with
      | zero =>
        simp only [List.getElem?_cons_zero, Option.some.injEq] at hg
        subst hg
        simp [resolveSegs, ha]
      | succ i' =>
        simp only [List.getElem?_cons_succ] at hg
        simp [resolveSegs, ha, ih _ _ hg]

theorem resolveSegs_duration_nonneg (segs : List Segment) (ds : List ℚ)
    (hsegs : ∀ s ∈ segs, 0 ≤ s.duration) (hds : ∀ d ∈ ds, 0 ≤ d) :
    ∀ s ∈ resolveSegs segs ds, 0 ≤ s.duration := by
  induction segs generalizing ds with
  | nil =>
    intro s hs
    simp [resolveSegs] at hs
  | cons a rest ih =>
    intro s hs
    cases ha : a.isNarration with
    | true =>
      cases ds with
      | nil =>
        simp only [resolveSegs, ha, if_pos] at hs
        rcases List.mem_cons.mp hs with heq | htail
        · exact heq ▸ hsegs a (List.mem_cons_self _ _)
        · exact ih _ (fun x hx => hsegs x (List.mem_cons_of_mem _ hx))
            (by intro d hd; simp at hd) s htail
      | cons d ds' =>
        simp only [resolveSegs, ha, if_pos] at hs
        rcases List.mem_cons.mp hs with heq | htail
        · rw [heq, Segment.withDuration_duration]
          exact hds d (List.mem_cons_self _ _)
        · exact ih _ (fun x hx => hsegs x (List.mem_cons_of_mem _ hx))
            (fun x hx => hds x (List.mem_cons_of_mem _ hx)) s htail
    | false =>
      simp only [resolveSegs, ha, Bool.false_eq_true, if_false] at hs
      rcases List.mem_cons.mp hs with heq | htail
      · exact heq ▸ hsegs a (List.mem_cons_self _ _)
      · exact ih _ (fun x hx => hsegs x (List.mem_cons_of_mem _ hx)) hds s htail

/- ----------------------------------------------------------------------
C9: segment durations under the public authoring surface.
---------------------------------------------------------------------- -/

/-- Counterexample for C9 as stated: the authoring surface accepts
`wait(-1.0)`, producing a segment with a negative duration. -/
theorem c9_counterexample :
    ¬ ∀ seg ∈ mNegWait.timeline.segments, 0 ≤ seg.duration := by
  intro h
  have := h (.silence (-1)) (by decide)
  norm_num [Segment.duration] at this

theorem applyOp_timeline_nonneg (m : M) (op : AuthOp)
    (hm : ∀ seg ∈ m.timeline.segments, 0 ≤ seg.duration)
    (hop : op.nonneg = true) :
    ∀ seg ∈ (m.applyOp op).timeline.segments, 0 ≤ seg.duration := by
  cases op with
  | narrate text =>
    intro seg hs
    rcases List.mem_append.mp hs with hold | hnew
    · exact hm seg hold
    · have heq : seg = Segment.narration text
          ((wordCount text : ℚ) * 60 / DEFAULT_NARRATION_WPM) := by
        simpa using hnew
      rw [heq]
      show 0 ≤ (wordCount text : ℚ) * 60 / DEFAULT_NARRATION_WPM
      unfold DEFAULT_NARRATION_WPM
      positivity
  | title text => exact hm
  | showOp text => exact hm
  | sectionOp text => exact hm
  | metric label value direction => exact hm
  | steps items => exact hm
  | beat =>
    intro seg hs
    rcases List.mem_append.mp hs with hold | hnew
    · exact hm seg hold
    · have heq : seg = Segment.silence BEAT_DURATION := by simpa using hnew
      rw [heq]
      norm_num [Segment.duration, BEAT_DURATION]
  | breath =>
    intro seg hs
    rcases List.mem_append.mp hs with hold | hnew
    · exact hm seg hold
    · have heq : seg = Segment.silence BREATH_DURATION := by simpa using hnew
      rw [heq]
      norm_num [Segment.duration, BREATH_DURATION]
  | wait duration =>
    intro seg hs
    rcases List.mem_append.mp hs with hold | hnew
    · exact hm seg hold
    · have heq : seg = Segment.silence duration := by simpa using hnew
      rw [heq]
      exact of_decide_eq_true hop
  | play technique =>
    intro seg hs
    rcases List.mem_append.mp hs with hold | hnew
    · exact hm seg hold
    · have heq : seg = Segment.animation technique.name technique.duration := by
        simpa using hnew
      rw [heq]
      exact of_decide_eq_true hop
  | clear => exact hm
  | resolve durations =>
    show ∀ seg ∈ ((m.resolveNarrationDurations durations).2).timeline.segments,
      0 ≤ seg.duration
    unfold M.resolveNarrationDurations
    dsimp only
    by_cases hlen : durations.length ≠ m.timeline.narrationIndices.length
    · rw [if_pos hlen]
      exact hm
    · rw [if_neg hlen]
      push_neg at hlen
      intro seg hs
      rw [fold_updateSegmentDuration] at hs
      have hres : foldSet (fun d seg => seg.withDuration d) m.timeline.segments
          ((indicesWhere Segment.isNarration m.timeline.segments).zip durations) =
          resolveSegs m.timeline.segments durations := by
        unfold Timeline.narrationIndices at hlen
        exact foldSet_narr_eq_resolveSegs _ _ hlen
      unfold Timeline.narrationIndices at hs
      rw [hres] at hs
      refine resolveSegs_duration_nonneg _ _ hm ?_ seg hs
      intro d hd
      have := List.all_eq_true.mp hop d hd
      exact of_decide_eq_true this

/-- C9 (amended): every timeline reachable through the public authoring
surface has only nonnegative segment durations, provided the
caller-supplied durations (`wait`, the technique duration of `play`, and
the resolved narration durations) are nonnegative.  With arbitrary
(negative) arguments the claim fails, see the counterexample. -/
theorem c9_durations_nonneg (ops : List AuthOp)
    (h : ∀ op ∈ ops, op.nonneg = true) :
    ∀ seg ∈ (M.new.runOps ops).timeline.segments, 0 ≤ seg.duration := by
  have main : ∀ (ops : List AuthOp) (m : M),
      (∀ seg ∈ m.timeline.segments, 0 ≤ seg.duration) →
      (∀ op ∈ ops, op.nonneg = true) →
      ∀ seg ∈ (m.runOps ops).timeline.segments, 0 ≤ seg.duration := by
    intro ops
    induction ops with
    | nil => intro m hm _; exact hm
    | cons op rest ih =>
      intro m hm hops
      have hstep := applyOp_timeline_nonneg m op hm
        (hops op (List.mem_cons_self _ _))
      exact ih (m.applyOp op) hstep fun o ho => hops o (List.mem_cons_of_mem _ ho)
  exact main ops M.new (by intro seg hs; simp [M.new, Timeline.default, Timeline.new] at hs) h

/-- Witness for C9: a wait, a beat and a narration with nonnegative
arguments. -/
theorem c9_witness :
    (∀ op ∈ [AuthOp.wait 1, AuthOp.beat, AuthOp.narrate "hi"], op.nonneg = true) ∧
    ∀ seg ∈ (M.new.runOps [AuthOp.wait 1, AuthOp.beat, AuthOp.narrate "hi"]).timeline.segments,
      0 ≤ seg.duration :=
  ⟨by decide, c9_durations_nonneg [AuthOp.wait 1, AuthOp.beat, AuthOp.narrate "hi"]
    (by decide)⟩

/- ----------------------------------------------------------------------
C1: duration resolution with a correctly-sized input.
---------------------------------------------------------------------- -/

/-- C1: with one supplied duration per narration segment,
`resolve_narration_durations` succeeds; afterwards the total duration is
the sum of the (unchanged) non-narration durations plus the supplied
narration durations, and every element's `created_at` (and, when
`segments_at_end` is set, `ended_at`) is the sum of the durations of all
segments with index below the recorded segment count. -/
theorem c1_resolve_correct (m : M) (durations : List ℚ)
    (h : durations.length = m.timeline.segments.countP Segment.isNarration) :
    ∃ m', m.resolveNarrationDurations durations = (.ok (), m') ∧
      m'.timeline.totalDuration =
        ((m.timeline.segments.filter fun s => !s.isNarration).map
          Segment.duration).sum + durations.sum ∧
      (∀ (i : ℕ) (s : Segment), m.timeline.segments[i]? = some s →
        s.isNarration = false → m'.timeline.segments[i]? = some s) ∧
      ∀ rec ∈ m'.elements,
        rec.createdAt =
          ((m'.timeline.segments.take rec.segmentsAtCreation).map
            Segment.duration).sum ∧
        ∀ k, rec.segmentsAtEnd = some k →
          rec.endedAt =
            some (((m'.timeline.segments.take k).map Segment.duration).sum) := by
  have hlen : durations.length = m.timeline.narrationIndices.length := by
    unfold Timeline.narrationIndices
    rw [length_indicesWhere]
    exact h
  have hsegs : ((m.timeline.narrationIndices.zip durations).foldl
      (fun (tl : Timeline) (p : ℕ × ℚ) => (tl.updateSegmentDuration p.1 p.2).1)
        m.timeline).segments =
      resolveSegs m.timeline.segments durations := by
    rw [fold_updateSegmentDuration]
    unfold Timeline.narrationIndices at hlen ⊢
    exact foldSet_narr_eq_resolveSegs _ _ hlen
  unfold M.resolveNarrationDurations
  dsimp only
  rw [if_neg (not_ne_iff.mpr hlen)]
  refine ⟨_, rfl, ?_, ?_, ?_⟩
  · show Timeline.totalDuration _ = _
    unfold Timeline.totalDuration
    rw [hsegs]
    exact resolveSegs_sum _ _ h
  · intro i s hg hn
    show ((m.timeline.narrationIndices.zip durations).foldl
      (fun tl p => (tl.updateSegmentDuration p.1 p.2).1) m.timeline).segments[i]? =
        some s
    rw [hsegs]
    exact resolveSegs_getElem?_not_narr _ _ _ _ hg hn
  · intro rec hrec
    rcases List.mem_map.mp hrec with ⟨rec0, hmem, hEq⟩
    subst hEq
    refine ⟨rfl, ?_⟩
    intro k hk
    have hk' : rec0.segmentsAtEnd = some k := hk
    show (match rec0.segmentsAtEnd with
        | some segCount => some (((((m.timeline.narrationIndices.zip durations).foldl
            (fun (tl : Timeline) (p : ℕ × ℚ) => (tl.updateSegmentDuration p.1 p.2).1)
              m.timeline).segments.take segCount).map Segment.duration).sum)
        | none => rec0.endedAt) = _
    rw [hk']

/-- Witness for C1: a scene with two narrations and a clear, resolved
with durations `[2, 3]`. -/
theorem c1_witness :
    ([2, 3] : List ℚ).length =
      mTwoNarr.timeline.segments.countP Segment.isNarration ∧
    (∃ m', mTwoNarr.resolveNarrationDurations [2, 3] = (.ok (), m') ∧
      m'.timeline.totalDuration =
        ((mTwoNarr.timeline.segments.filter fun s => !s.isNarration).map
          Segment.duration).sum + ([2, 3] : List ℚ).sum ∧
      (∀ (i : ℕ) (s : Segment), mTwoNarr.timeline.segments[i]? = some s →
        s.isNarration = false → m'.timeline.segments[i]? = some s) ∧
      ∀ rec ∈ m'.elements,
        rec.createdAt =
          ((m'.timeline.segments.take rec.segmentsAtCreation).map
            Segment.duration).sum ∧
        ∀ k, rec.segmentsAtEnd = some k →
          rec.endedAt =
            some (((m'.timeline.segments.take k).map Segment.duration).sum)) :=
  ⟨by decide, c1_resolve_correct mTwoNarr [2, 3] (by decide)⟩

/- ----------------------------------------------------------------------
C4: the animation progress computation.
---------------------------------------------------------------------- -/

/-- Counterexample for C4 as stated: a zero-duration animation segment
does NOT "always yield progress 1.0" — at a clamped time strictly before
the segment's start (here `t = 0`, segment start `1`) the first branch of
the computation fires and the progress is `0`. -/
theorem c4_counterexample :
    animationProgress segsAnimZero 1 0 = 0 ∧ (0 : ℚ) ≠ 1 := by
  constructor
  · unfold animationProgress segAbsStart segsAnimZero
    norm_num [Segment.duration]
  · norm_num

/-- C4 (amended): the progress used by `compute_frame_state` for an
animation anchored at segment `idx` with absolute start `segAbsStart`
(the sum of the durations of all segments with index `< idx`) is: `0`
when the clamped time is strictly before the start; `1` when the time is
at/after `start + duration` or the duration is `<= 0` (so a zero-duration
segment yields `1` at every time at or after its start, not before it);
and `(time - start)/duration` otherwise. -/
theorem c4_animation_progress (segments : List Segment) (idx : ℕ) (time : ℚ)
    (seg : Segment) (hseg : segments[idx]? = some seg) :
    (time < segAbsStart segments idx → animationProgress segments idx time = 0) ∧
    (segAbsStart segments idx ≤ time →
      segAbsStart segments idx + seg.duration ≤ time ∨ seg.duration ≤ 0 →
      animationProgress segments idx time = 1) ∧
    (segAbsStart segments idx ≤ time →
      time < segAbsStart segments idx + seg.duration → 0 < seg.duration →
      animationProgress segments idx time =
        (time - segAbsStart segments idx) / seg.duration) := by
  unfold animationProgress
  rw [hseg]
  dsimp only [Option.map_some', Option.getD_some]
  refine ⟨?_, ?_, ?_⟩
  · intro h
    rw [if_pos h]
  · intro h1 h2
    rw [if_neg (not_lt.mpr h1), if_pos h2]
  · intro h1 h2 h3
    rw [if_neg (not_lt.mpr h1), if_neg ?_]
    rintro (hc | hc) <;> linarith

/-- Witness for C4: silence of 1s then a 2s animation, queried at
`t = 2` (inside the window, progress `(2-1)/2`). -/
theorem c4_witness :
    segsAnim[1]? = some (.animation "A" 2) ∧
    ((2 : ℚ) < segAbsStart segsAnim 1 → animationProgress segsAnim 1 2 = 0) ∧
    (segAbsStart segsAnim 1 ≤ 2 →
      segAbsStart segsAnim 1 + (Segment.animation "A" 2).duration ≤ 2 ∨
        (Segment.animation "A" 2).duration ≤ 0 →
      animationProgress segsAnim 1 2 = 1) ∧
    (segAbsStart segsAnim 1 ≤ 2 →
      (2 : ℚ) < segAbsStart segsAnim 1 + (Segment.animation "A" 2).duration →
      0 < (Segment.animation "A" 2).duration →
      animationProgress segsAnim 1 2 =
        (2 - segAbsStart segsAnim 1) / (Segment.animation "A" 2).duration) :=
  ⟨by decide, c4_animation_progress segsAnim 1 2 (.animation "A" 2) (by decide)⟩

/- ----------------------------------------------------------------------
C7: the Stagger combinator.
---------------------------------------------------------------------- -/

theorem durationForCount_eq (s : Stagger) (n : ℕ) :
    s.durationForCount n = s.inner.duration + s.delay * ((n - 1 : ℕ) : ℚ) := by
  unfold Stagger.durationForCount
  by_cases h : n > 1
  · rw [if_pos h]
  · rw [if_neg h]
    have h0 : n - 1 = 0 := by omega
    rw [h0]
    norm_num

/-- Counterexample for C7 as stated: when the stagger's total duration
for the actual count is `<= 0` (a zero-duration inner technique with zero
delay), the code short-circuits every item to `inner.apply(1)`, while the
claim's formula (`p <= item_start` branch with `item_start = 0`) demands
`inner.apply(0)` — at progress `0` these differ (opacity `1` vs `0`). -/
theorem c7_counterexample :
    (stZero.applyItems 1 0).map TechniqueOutput.opacity = [1] ∧
    (staggerApplyItemsSpec stZero 1 0).map TechniqueOutput.opacity = [0] ∧
    (1 : ℚ) ≠ 0 := by
  refine ⟨?_, ?_, by norm_num⟩
  · unfold Stagger.applyItems Stagger.applyItemForCount Stagger.durationForCount
      stZero FadeIn mkTechnique clamp01
    norm_num [TechniqueOutput.default]
  · unfold staggerApplyItemsSpec stZero FadeIn mkTechnique clamp01
    norm_num [TechniqueOutput.default]

/-- C7 (amended): for every Stagger-wrapped technique, actual item count
`n` and progress `p`, whenever the total duration
`inner.duration() + delay * (n-1)` derived from the actual count is
positive, `apply_items(n, p)` matches the claim's per-item formula
exactly; when that total is `<= 0`, every item is `inner.apply(1)`
instead (the code's defensive short-circuit, which the claim's formula
misses). -/
theorem c7_stagger_amended (s : Stagger) (n : ℕ) (p : ℚ) :
    (0 < s.durationForCount n →
      s.applyItems n p = staggerApplyItemsSpec s n p) ∧
    (s.durationForCount n ≤ 0 →
      s.applyItems n p = (List.range n).map fun _ => s.inner.apply 1) := by
  constructor
  · intro hpos
    unfold Stagger.applyItems staggerApplyItemsSpec
    apply List.map_congr_left
    intro i hi
    unfold Stagger.applyItemForCount
    rw [if_neg (not_le.mpr hpos), ← durationForCount_eq]
    by_cases hn : n > 1
    · have hn' : ¬ n ≤ 1 := by omega
      simp only [if_pos hn, if_neg hn']
    · have hn' : n ≤ 1 := by omega
      simp only [if_neg hn, if_pos hn']
  · intro hle
    unfold Stagger.applyItems
    apply List.map_congr_left
    intro i hi
    unfold Stagger.applyItemForCount
    rw [if_pos hle]

/-- Witness for C7: `Stagger(FadeIn{0.5}).withDelay(0.1)` applied to 3
items at progress `1/2` (total duration `0.7 > 0`). -/
theorem c7_witness :
    0 < stHalf.durationForCount 3 ∧
    stHalf.applyItems 3 (1/2) = staggerApplyItemsSpec stHalf 3 (1/2) := by
  have hpos : 0 < stHalf.durationForCount 3 := by
    unfold Stagger.durationForCount stHalf FadeIn mkTechnique
    norm_num
  exact ⟨hpos, (c7_stagger_amended stHalf 3 (1/2)).1 hpos⟩

/- ----------------------------------------------------------------------
C5: `segments_in_range`.
---------------------------------------------------------------------- -/

theorem segmentStarts_bounds (segs : List Segment) (c : ℚ)
    (h : ∀ s ∈ segs, 0 ≤ s.duration) :
    ∀ q ∈ segmentStarts c segs,
      c ≤ q.1 ∧ q.1 + q.2.duration ≤ c + (segs.map Segment.duration).sum := by
  induction segs generalizing c with
  | nil => intro q hq; simp [segmentStarts] at hq
  | cons seg rest ih =>
    intro q hq
    have hrest : ∀ s ∈ rest, 0 ≤ s.duration :=
      fun s hs => h s (List.mem_cons_of_mem _ hs)
    have hsum : 0 ≤ (rest.map Segment.duration).sum := by
      apply List.sum_nonneg
      intro x hx
      rcases List.mem_map.mp hx with ⟨s, hs, hxs⟩
      exact hxs ▸ hrest s hs
    have hd : 0 ≤ seg.duration := h seg (List.mem_cons_self _ _)
    rcases List.mem_cons.mp hq with heq | htail
    · subst heq
      constructor
      · exact le_refl _
      · simp only [List.map_cons, List.sum_cons]
        linarith
    · rcases ih (c + seg.duration) hrest q htail with ⟨h1, h2⟩
      constructor
      · linarith
      · simp only [List.map_cons, List.sum_cons]
        linarith

theorem segmentsInRangeAux_eq_filter (segs : List Segment) (c a b : ℚ)
    (h : ∀ s ∈ segs, 0 ≤ s.duration) :
    segmentsInRangeAux a b segs c =
      (segmentStarts c segs).filter
        fun q => decide (q.1 < b ∧ a < q.1 + q.2.duration) := by
  induction segs generalizing c with
  | nil => rfl
  | cons seg rest ih =>
    have hrest : ∀ s ∈ rest, 0 ≤ s.duration :=
      fun s hs => h s (List.mem_cons_of_mem _ hs)
    show (if c < b ∧ c + seg.duration > a then [(c, seg)] else []) ++
        (if c + seg.duration ≥ b then []
         else segmentsInRangeAux a b rest (c + seg.duration)) = _
    show _ = ((c, seg) :: segmentStarts (c + seg.duration) rest).filter
        fun q => decide (q.1 < b ∧ a < q.1 + q.2.duration)
    rw [List.filter_cons]
    by_cases hbreak : c + seg.duration ≥ b
    · have htail : (segmentStarts (c + seg.duration) rest).filter
          (fun q => decide (q.1 < b ∧ a < q.1 + q.2.duration)) = [] := by
        rw [List.filter_eq_nil_iff]
        intro q hq
        have hb := (segmentStarts_bounds rest (c + seg.duration) hrest q hq).1
        simp only [decide_eq_true_eq]
        rintro ⟨hlt, _⟩
        linarith
      rw [if_pos hbreak, htail]
      by_cases hc : c < b ∧ a < c + seg.duration
      · simp [hc]
      · simp [hc]
    · rw [if_neg hbreak, ih (c + seg.duration) hrest]
      by_cases hc : c < b ∧ a < c + seg.duration
      · simp [hc]
      · simp [hc]

/-- Counterexample for C5 as stated: in a timeline
`[Silence 1, Silence 0, Silence 1]` the zero-duration segment (start
time `1`) is returned by `segments_in_range(0.5, 1.5)`, although its
half-open occupied interval `[1, 1)` is empty and intersects nothing. -/
theorem c5_counterexample :
    (1, Segment.silence 0) ∈ tlZeroSeg.segmentsInRange (1/2) (3/2) ∧
    ¬ intervalsIntersect 1 0 (1/2) (3/2) := by
  constructor
  · unfold Timeline.segmentsInRange tlZeroSeg
    norm_num [segmentsInRangeAux, Segment.duration]
  · rintro ⟨x, ⟨h1, h2⟩, _, _⟩
    linarith

/-- C5 (amended): for a timeline whose segment durations are all
nonnegative, `segments_in_range(a, b)` returns exactly the segments
(paired with their start times, in timeline order) satisfying
`start < b ∧ a < start + duration`.  For positive-duration segments this
is precisely nonempty intersection of `[start, start+duration)` with
`[a, b)`, but a zero-duration segment is included whenever
`a < start < b` even though its occupied interval is empty.  A query
entirely past the end of the timeline returns the empty list. -/
theorem c5_segments_in_range_amended (tl : Timeline) (a b : ℚ)
    (h : ∀ s ∈ tl.segments, 0 ≤ s.duration) :
    tl.segmentsInRange a b =
      (segmentStarts 0 tl.segments).filter
        (fun q => decide (q.1 < b ∧ a < q.1 + q.2.duration)) ∧
    (tl.totalDuration ≤ a → tl.segmentsInRange a b = []) := by
  have hmain := segmentsInRangeAux_eq_filter tl.segments 0 a b h
  refine ⟨hmain, ?_⟩
  intro hpast
  unfold Timeline.segmentsInRange
  rw [hmain]
  rw [List.filter_eq_nil_iff]
  intro q hq
  have hb := (segmentStarts_bounds tl.segments 0 h q hq).2
  unfold Timeline.totalDuration at hpast
  simp only [decide_eq_true_eq]
  rintro ⟨_, hgt⟩
  linarith

/-- Witness for C5: the zero-duration timeline queried over
`[0.5, 1.5)`. -/
theorem c5_witness :
    (∀ s ∈ tlZeroSeg.segments, 0 ≤ s.duration) ∧
    (tlZeroSeg.segmentsInRange (1/2) (3/2) =
      (segmentStarts 0 tlZeroSeg.segments).filter
        (fun q => decide (q.1 < 3/2 ∧ 1/2 < q.1 + q.2.duration)) ∧
    (tlZeroSeg.totalDuration ≤ 1/2 →
      tlZeroSeg.segmentsInRange (1/2) (3/2) = [])) :=
  ⟨by decide, c5_segments_in_range_amended tlZeroSeg (1/2) (3/2) (by decide)⟩

/- ----------------------------------------------------------------------
C3: element visibility in `compute_frame_state`.
---------------------------------------------------------------------- -/

theorem applyOutputToElement_visible (tech : Technique) (progress : ℚ)
    (el : ElementState) :
    (applyOutputToElement tech progress el).visible = el.visible := by
  unfold applyOutputToElement
  split_ifs <;> rfl

theorem applyAnimationRecord_visible (segments : List Segment) (time : ℚ)
    (els : List ElementState) (record : AnimationRecord) (i : ℕ) :
    ((applyAnimationRecord segments time els record)[i]?).map ElementState.visible =
      (els[i]?).map ElementState.visible := by
  unfold applyAnimationRecord
  dsimp only
  rw [List.getElem?_map]
  cases h : els[i]? with
  | none => rfl
  | some el =>
    simp only [Option.map_some']
    congr 1
    split_ifs with hc
    · exact applyOutputToElement_visible _ _ _
    · rfl

theorem applyAnimations_visible (m : M) (time : ℚ) (els : List ElementState)
    (i : ℕ) :
    ((applyAnimations m time els)[i]?).map ElementState.visible =
      (els[i]?).map ElementState.visible := by
  unfold applyAnimations
  induction m.animations generalizing els with
  | nil => rfl
  | cons record rest ih =>
    show ((rest.foldl (applyAnimationRecord m.timeline.segments time)
      (applyAnimationRecord m.timeline.segments time els record))[i]?).map
        ElementState.visible = _
    rw [ih, applyAnimationRecord_visible]

theorem assignLayoutPositions_visible (els : List ElementState) (i : ℕ) :
    ((assignLayoutPositions els)[i]?).map ElementState.visible =
      (els[i]?).map ElementState.visible := by
  unfold assignLayoutPositions
  dsimp only
  split_ifs with h
  · rfl
  · exact foldSet_getElem?_proj (fun y e => { e with layoutY := y })
      ElementState.visible (fun c a => rfl) els _ i

/-- Counterexample for C3 as stated: the (reachable) registry state
built by `wait(-1.0)` then `title("T")` holds an element record, but its
total duration is negative, so the Rust `time.clamp(0.0, total_duration)`
in `compute_frame_state` panics (`none` in the model) — at `t = 0` no
frame snapshot exists, hence the element's entry has no visibility flag
satisfying the claimed equivalence (or anything else). -/
theorem c3_counterexample :
    mNegWaitTitle.elements[0]? = some recNegWaitTitle ∧
    computeFrameState mNegWaitTitle 0 = none := by
  constructor
  · norm_num [mNegWaitTitle, M.new, M.wait, M.title, M.mintElementWithMeta,
      Timeline.default, Timeline.new, Timeline.addSegment,
      Timeline.totalDuration, Segment.duration, recNegWaitTitle]
  · have htot : mNegWaitTitle.timeline.totalDuration = -1 := by
      norm_num [mNegWaitTitle, M.new, M.wait, M.title, M.mintElementWithMeta,
        Timeline.default, Timeline.new, Timeline.addSegment,
        Timeline.totalDuration, Segment.duration]
    unfold computeFrameState
    dsimp only
    rw [htot]
    unfold f64Clamp
    rw [if_neg (by norm_num)]
    rfl

/-- C3 (amended): provided the registry's total duration is nonnegative
(otherwise the clamp in `compute_frame_state` panics), for every
requested time `t` — negative and past-the-end included — the element's
entry in the computed frame state has `visible = true` iff
`created_at <= ct` and (`ended_at` unset or `ct < ended_at`), where `ct`
is `t` clamped into `[0, total_duration]`. -/
theorem c3_visibility (m : M) (t : ℚ) (hnn : 0 ≤ m.timeline.totalDuration)
    (i : ℕ) (rec : ElementRecord) (hget : m.elements[i]? = some rec) :
    ∃ fs ct es, computeFrameState m t = some fs ∧
      f64Clamp t 0 m.timeline.totalDuration = some ct ∧
      fs.elements[i]? = some es ∧
      (es.visible = true ↔
        (rec.createdAt ≤ ct ∧ ∀ e, rec.endedAt = some e → ct < e)) := by
  set ct := if t < 0 then 0 else if t > m.timeline.totalDuration
    then m.timeline.totalDuration else t with hct
  have hclamp : f64Clamp t 0 m.timeline.totalDuration = some ct := by
    unfold f64Clamp
    rw [if_pos hnn]
  have hels0 : (m.elements.map fun r => initialElementState r ct)[i]? =
      some (initialElementState rec ct) := by
    rw [List.getElem?_map, hget]
    rfl
  have hpipe := assignLayoutPositions_visible
    (applyAnimations m ct (m.elements.map fun r => initialElementState r ct)) i
  rw [applyAnimations_visible, hels0] at hpipe
  rcases Option.map_eq_some'.mp hpipe with ⟨es, hes, hvis⟩
  have hiff : es.visible = true ↔
      (rec.createdAt ≤ ct ∧ ∀ e, rec.endedAt = some e → ct < e) := by
    rw [hvis]
    unfold initialElementState
    dsimp only
    cases he : rec.endedAt with
    | none => simp [Option.all]
    | some e0 => simp [Option.all]
  unfold computeFrameState
  dsimp only
  rw [hclamp]
  simp only [Option.map_some']
  exact ⟨_, ct, es, rfl, rfl, hes, hiff⟩

/-- Witness for C3: a 1s wait then a title, queried at `t = 2` (clamped
back to the end of the timeline, where the element is visible). -/
theorem c3_witness :
    0 ≤ mWaitTitle.timeline.totalDuration ∧
    mWaitTitle.elements[0]? = some recWaitTitle ∧
    ∃ fs ct es, computeFrameState mWaitTitle 2 = some fs ∧
      f64Clamp 2 0 mWaitTitle.timeline.totalDuration = some ct ∧
      fs.elements[0]? = some es ∧
      (es.visible = true ↔
        (recWaitTitle.createdAt ≤ ct ∧
          ∀ e, recWaitTitle.endedAt = some e → ct < e)) := by
  have h1 : 0 ≤ mWaitTitle.timeline.totalDuration := by
    norm_num [mWaitTitle, M.new, M.wait, M.title, M.mintElementWithMeta,
      Timeline.default, Timeline.new, Timeline.addSegment,
      Timeline.totalDuration, Segment.duration]
  have h2 : mWaitTitle.elements[0]? = some recWaitTitle := by
    norm_num [mWaitTitle, M.new, M.wait, M.title, M.mintElementWithMeta,
      Timeline.default, Timeline.new, Timeline.addSegment,
      Timeline.totalDuration, Segment.duration, recWaitTitle]
  exact ⟨h1, h2, c3_visibility mWaitTitle 2 h1 0 recWaitTitle h2⟩

/- ----------------------------------------------------------------------
C8: the theme property list in the frame snapshot.
---------------------------------------------------------------------- -/

theorem foldl_insert_not_mem (l : List (String × String))
    (m0 : String → Option String) (k : String) (h : k ∉ l.map Prod.fst) :
    l.foldl (fun m kv => fun x => if x = kv.1 then some kv.2 else m x) m0 k =
      m0 k := by
  induction l generalizing m0 with
  | nil => rfl
  | cons kv rest ih =>
    simp only [List.map_cons, List.mem_cons, not_or] at h
    show rest.foldl _ (fun x => if x = kv.1 then some kv.2 else m0 x) k = m0 k
    rw [ih _ h.2]
    simp [h.1]

theorem foldl_insert_mem (l : List (String × String))
    (m0 : String → Option String) (k v : String)
    (hnd : (l.map Prod.fst).Nodup) (hmem : (k, v) ∈ l) :
    l.foldl (fun m kv => fun x => if x = kv.1 then some kv.2 else m x) m0 k =
      some v := by
  induction l generalizing m0 with
  | nil => simp at hmem
  | cons kv rest ih =>
    simp only [List.map_cons, List.nodup_cons] at hnd
    rcases List.mem_cons.mp hmem with heq | htail
    · subst heq
      show rest.foldl _ (fun x => if x = k then some v else m0 x) k = some v
      rw [foldl_insert_not_mem _ _ _ hnd.1]
      simp
    · exact ih _ hnd.2 htail

theorem buildHashMap_lookup (l : List (String × String)) (k v : String)
    (hnd : (l.map Prod.fst).Nodup) (hmem : (k, v) ∈ l) :
    buildHashMap l k = some v :=
  foldl_insert_mem l _ k v hnd hmem

theorem toCssProperties_map_fst (theme : Theme) :
    theme.toCssProperties.map Prod.fst = cssKeys := rfl

theorem cssKeys_nodup : cssKeys.Nodup := by decide

/-- Counterexample for C8 as stated: the frame snapshot stores the theme
pairs as a `HashMap`, whose content identifies two differently-ordered
pair lists — so the snapshot cannot contain the list "verbatim and
unmodified, in the same order": the order (and any duplicate
multiplicity) is irrecoverably dropped at the
`theme.to_css_properties().into_iter().collect()` step. -/
theorem c8_counterexample :
    buildHashMap [("a", "1"), ("b", "2")] = buildHashMap [("b", "2"), ("a", "1")] ∧
    ([("a", "1"), ("b", "2")] : List (String × String)) ≠ [("b", "2"), ("a", "1")] := by
  constructor
  · funext k
    show (if k = "b" then some "2" else if k = "a" then some "1" else none) =
      (if k = "a" then some "1" else if k = "b" then some "2" else none)
    by_cases h1 : k = "a"
    · subst h1
      rw [if_neg (by decide), if_pos rfl, if_pos rfl]
    · by_cases h2 : k = "b"
      · subst h2
        rw [if_pos rfl, if_neg h1, if_pos rfl]
      · rw [if_neg h2, if_neg h1, if_neg h1, if_neg h2]
  · decide

/-- C8 (amended): whenever `compute_frame_state` returns (total duration
nonnegative), the snapshot's `theme.cssProperties` carries the theme name
and exactly the key→value associations of `to_css_properties()`: looking
up any key of the list yields the value paired with it (the keys are
pairwise distinct).  Order and multiplicity of the list are not preserved
— the pairs are stored in an unordered map (see the counterexample). -/
theorem c8_theme_lookup (m : M) (t : ℚ) (hnn : 0 ≤ m.timeline.totalDuration) :
    ∃ fs, computeFrameState m t = some fs ∧
      fs.theme.name = m.currentTheme.name ∧
      ∀ k v, (k, v) ∈ m.currentTheme.toCssProperties →
        fs.theme.cssProperties k = some v := by
  have hclamp : f64Clamp t 0 m.timeline.totalDuration =
      some (if t < 0 then 0 else if t > m.timeline.totalDuration
        then m.timeline.totalDuration else t) := by
    unfold f64Clamp
    rw [if_pos hnn]
  unfold computeFrameState
  dsimp only
  rw [hclamp]
  simp only [Option.map_some']
  refine ⟨_, rfl, rfl, ?_⟩
  intro k v hmem
  show buildHashMap m.currentTheme.toCssProperties k = some v
  exact buildHashMap_lookup _ k v
    (by rw [toCssProperties_map_fst]; exact cssKeys_nodup) hmem

/-- Witness for C8: the default scene at time 0. -/
theorem c8_witness :
    0 ≤ M.new.timeline.totalDuration ∧
    ∃ fs, computeFrameState M.new 0 = some fs ∧
      fs.theme.name = M.new.currentTheme.name ∧
      ∀ k v, (k, v) ∈ M.new.currentTheme.toCssProperties →
        fs.theme.cssProperties k = some v := by
  have h : 0 ≤ M.new.timeline.totalDuration := by
    norm_num [M.new, Timeline.default, Timeline.new, Timeline.totalDuration]
  exact ⟨h, c8_theme_lookup M.new 0 h⟩

/- ----------------------------------------------------------------------
C6: layout position assignment.
---------------------------------------------------------------------- -/

theorem countP_visible_split (els : List ElementState) :
    els.countP visibleHeader + els.countP visibleBody =
      els.countP fun x => x.visible := by
  induction els with
  | nil => rfl
  | cons a t ih =>
    cases hv : a.visible <;> cases hh : isHeader a.kind <;>
      simp [List.countP_cons, visibleHeader, visibleBody, hv, hh] <;> omega

theorem layoutPositions_length (n : ℕ) : (layoutPositions n).length = n := by
  unfold layoutPositions
  by_cases h1 : n = 1
  · subst h1; rfl
  · by_cases h2 : n = 2
    · subst h2; simp
    · rw [if_neg h1, if_neg h2]
      simp

theorem layoutPositions_getElem (n slot : ℕ) (h : slot < n) :
    (layoutPositions n)[slot]? = some (claimLayoutY n slot) := by
  unfold layoutPositions claimLayoutY
  by_cases h1 : n = 1
  · subst h1
    have h0 : slot = 0 := by omega
    subst h0
    rfl
  · by_cases h2 : n = 2
    · subst h2
      rw [if_neg h1, if_pos rfl, if_neg h1, if_pos rfl]
      rcases (by omega : slot = 0 ∨ slot = 1) with h01 | h01 <;> subst h01 <;> rfl
    · rw [if_neg h1, if_neg h2, if_neg h1, if_neg h2,
        List.getElem?_map, List.getElem?_range h]
      dsimp only [Option.map_some']
      rw [if_neg h1]

theorem sortedIndices_nodup (els : List ElementState) :
    (sortedIndices els).Nodup := by
  unfold sortedIndices
  refine List.Nodup.append (nodup_indicesWhere _ _) (nodup_indicesWhere _ _) ?_
  intro j hj1 hj2
  rcases mem_indicesWhere.mp hj1 with ⟨e1, hg1, hp1⟩
  rcases mem_indicesWhere.mp hj2 with ⟨e2, hg2, hp2⟩
  rw [hg1] at hg2
  have he12 : e1 = e2 := Option.some.inj hg2
  subst he12
  simp only [visibleHeader, visibleBody, Bool.and_eq_true, Bool.not_eq_true'] at hp1 hp2
  rw [hp1.2] at hp2
  exact absurd hp2.2 (by simp)

theorem sortedIndices_length (els : List ElementState) :
    (sortedIndices els).length = els.countP fun x => x.visible := by
  unfold sortedIndices
  rw [List.length_append, length_indicesWhere, length_indicesWhere]
  exact countP_visible_split els

theorem assignLayout_at_mem (els : List ElementState) (i : ℕ) (e : ElementState)
    (hget : els[i]? = some e) (hmem : i ∈ sortedIndices els) :
    (assignLayoutPositions els)[i]? =
      some { e with layoutY := claimLayoutY (els.countP fun x => x.visible) ((sortedIndices els).indexOf i) } := by
  have hne : ¬((sortedIndices els).length = 0) := by
    intro h0
    rw [List.length_eq_zero] at h0
    rw [h0] at hmem
    simp at hmem
  have hslotlt : (sortedIndices els).indexOf i < (sortedIndices els).length :=
    List.indexOf_lt_length.mpr hmem
  have hsorted_get : (sortedIndices els)[(sortedIndices els).indexOf i]? = some i := by
    rw [← List.get?_eq_getElem?]
    exact List.indexOf_get? hmem
  have hpos_get := layoutPositions_getElem _ _ hslotlt
  have hzip_get := getElem?_zip hsorted_get hpos_get
  have hzip_mem := List.getElem?_mem hzip_get
  have hfst : (((sortedIndices els).zip
      (layoutPositions (sortedIndices els).length)).map Prod.fst) =
      sortedIndices els :=
    List.map_fst_zip _ _ (by rw [layoutPositions_length])
  unfold assignLayoutPositions
  dsimp only
  rw [if_neg hne,
    foldSet_getElem?_mem _ _ _ _ _ (by rw [hfst]; exact sortedIndices_nodup els)
      hzip_mem,
    hget, sortedIndices_length]
  rfl

/-- C6: in every frame state, a visible element's `layoutY` is the slot
value determined by the number `n` of visible elements (`0.5` for one;
`0.3`/`0.65` for two; `0.2 + 0.6*slot/(n-1)` for three or more), where
its slot is its rank among visible header-kind elements (Title, Section)
when it is a header, and the number of visible headers plus its rank
among visible body-kind elements otherwise — headers always occupy the
leading slots, each group in creation order, regardless of how the
authoring calls were interleaved. -/
theorem c6_layout (els : List ElementState) (i : ℕ) (e : ElementState)
    (hget : els[i]? = some e) (hvis : e.visible = true) :
    ∃ e', (assignLayoutPositions els)[i]? = some e' ∧ e'.visible = true ∧
      e'.layoutY = claimLayoutY (els.countP fun x => x.visible)
        (if isHeader e.kind then (els.take i).countP visibleHeader
         else els.countP visibleHeader + (els.take i).countP visibleBody) := by
  by_cases hh : isHeader e.kind = true
  · have hp : visibleHeader e = true := by simp [visibleHeader, hvis, hh]
    have hmemH : i ∈ indicesWhere visibleHeader els :=
      mem_indicesWhere.mpr ⟨e, hget, hp⟩
    have hmem : i ∈ sortedIndices els := List.mem_append_left _ hmemH
    have hidx : (sortedIndices els).indexOf i =
        (els.take i).countP visibleHeader := by
      unfold sortedIndices
      rw [List.indexOf_append_of_mem hmemH]
      exact indexOf_indicesWhere hget hp
    refine ⟨{ e with layoutY := claimLayoutY (els.countP fun x => x.visible) ((sortedIndices els).indexOf i) },
      assignLayout_at_mem els i e hget hmem, hvis, ?_⟩
    dsimp only
    rw [hidx, if_pos hh]
  · have hh' : isHeader e.kind = false := by
      rw [Bool.not_eq_true] at hh
      exact hh
    have hp : visibleBody e = true := by simp [visibleBody, hvis, hh']
    have hmemB : i ∈ indicesWhere visibleBody els :=
      mem_indicesWhere.mpr ⟨e, hget, hp⟩
    have hmem : i ∈ sortedIndices els := List.mem_append_right _ hmemB
    have hnotH : i ∉ indicesWhere visibleHeader els := by
      intro hmemH
      rcases mem_indicesWhere.mp hmemH with ⟨e1, hg1, hp1⟩
      rw [hget] at hg1
      have he1 : e = e1 := Option.some.inj hg1
      subst he1
      simp [visibleHeader, hh'] at hp1
    have hidx : (sortedIndices els).indexOf i =
        els.countP visibleHeader + (els.take i).countP visibleBody := by
      unfold sortedIndices
      rw [List.indexOf_append_of_not_mem hnotH, length_indicesWhere,
        indexOf_indicesWhere hget hp]
    refine ⟨{ e with layoutY := claimLayoutY (els.countP fun x => x.visible) ((sortedIndices els).indexOf i) },
      assignLayout_at_mem els i e hget hmem, hvis, ?_⟩
    dsimp only
    rw [hidx, if_neg hh]

/-- Witness for C6: three visible elements (a body authored first, then a
header, then another body): the header at original index 1 is a visible
header and receives its slot value. -/
theorem c6_witness :
    elsLayout[1]? = some (headerEl 1 "h0") ∧ (headerEl 1 "h0").visible = true ∧
    ∃ e', (assignLayoutPositions elsLayout)[1]? = some e' ∧ e'.visible = true ∧
      e'.layoutY = claimLayoutY (elsLayout.countP fun x => x.visible)
        (if isHeader (headerEl 1 "h0").kind then
          (elsLayout.take 1).countP visibleHeader
         else elsLayout.countP visibleHeader +
          (elsLayout.take 1).countP visibleBody) :=
  ⟨rfl, rfl, c6_layout elsLayout 1 (headerEl 1 "h0") rfl rfl⟩

end Moron
